import Mathlib

/-!
Verification development for the BulkPageSpeedInsightsTest repository.

The orchestration core lives in the client page component
(src/unnamed/part_001): `startPerformanceScanWithUrls`, `stopScan`,
`rescanErrorUrls`, `rescanSingleUrl`, `parseManualUrls`, and the
`ScanResult` record.  The PageSpeed API route (src/unnamed/part_000,
`POST`) contributes the issue-extraction logic.

Embedding conventions:
* JS numbers that the claims care about are modelled as `Int` (rounded
  Lighthouse scores) and `Rat` (audit scores in [0,1], field metrics);
  the route compares `audit.score < 0.9` on JS numbers, modelled as the
  rational comparison `s < 9/10`.
* The single mutable `stopScanningRef` flag is modelled by a threshold
  `stopAt : Option Nat` over the structural positions of the two flag
  reads per loop iteration (`2*i` for the pre-item read, `2*i + 1` for
  the inter-device read).  JS is single threaded, so every real
  execution corresponds to such a threshold: reads strictly before the
  threshold see `false`, reads at or after it see `true`.
* Backend calls (`scanUrl`, which throws on failure) are an oracle
  `Backend : String -> Strategy -> Except String DeviceResult`; the run
  additionally returns the ordered trace of backend calls and pace
  delays as a `List Event`.
-/

/-- Device class, `strategy` in the source. -/
inductive Strategy where
  | mobile
  | desktop
deriving DecidableEq, Repr

/-- `ScanStatus` from src/unnamed/part_001 line 10:
`'pending' | 'scanning' | 'completed' | 'error'`. -/
inductive ScanStatus where
  | pending
  | scanning
  | completed
  | error
deriving DecidableEq, Repr

/-- `PageSpeedMetrics` (part_001 lines 12-17): four rounded scores. -/
structure PageSpeedMetrics where
  performance : Int
  accessibility : Int
  bestPractices : Int
  seo : Int
deriving DecidableEq, Repr

/-- `FieldData` (part_001 lines 19-24): optional numeric field metrics. -/
structure FieldData where
  fcp : Option Rat := none
  fid : Option Rat := none
  lcp : Option Rat := none
  cls : Option Rat := none
deriving DecidableEq, Repr

/-- `AuditIssue` (part_001 lines 26-32 / part_000 lines 502-508). -/
structure AuditIssue where
  id : String
  title : String
  description : String
  score : Option Rat
  displayValue : Option String := none
deriving DecidableEq, Repr

/-- Per-device outcome record carried in `ScanResult.mobile/desktop`
(the payload returned by `scanUrl`, part_001 lines 312-316). -/
structure DeviceResult where
  scores : PageSpeedMetrics
  fieldData : FieldData
  issues : List AuditIssue
deriving DecidableEq, Repr

/-- `ScanResult` (part_001 lines 34-49).  The TypeScript interface has
optional fields `showIssues`, `mobile`, `desktop`, `error`. -/
structure ScanResult where
  url : String
  status : ScanStatus
  showIssues : Option Bool := none
  mobile : Option DeviceResult := none
  desktop : Option DeviceResult := none
  error : Option String := none
deriving DecidableEq, Repr

/-- `UrlItem` (part_001 lines 5-8). -/
structure UrlItem where
  url : String
  selected : Bool
deriving DecidableEq, Repr

/-- The scoring backend as an oracle: `scanUrl` (part_001 lines
296-321) either returns the device payload or throws an `Error` whose
message ends up on the item. -/
def Backend : Type := String → Strategy → Except String DeviceResult

/-- A fresh `Pending` item as built by `initialResults` in
`handleManualUrlsSubmit` / `startPerformanceScan` (part_001 lines
271-274 and 332-335): `{ url, status: 'pending' }`. -/
def freshPending (url : String) : ScanResult :=
  { url := url, status := ScanStatus.pending }

section RouteModel
/-!
Model of the issue extraction in the PageSpeed route handler `POST`
(src/unnamed/part_000 lines 605-640).
-/

/-- One entry of the `audits` map of a successful Lighthouse response
(the fields the route reads at part_000 lines 630-638). -/
structure Audit where
  title : String
  description : String
  score : Option Rat
  displayValue : Option String := none
deriving DecidableEq, Repr

/-- `relevantAuditIds` (part_000 lines 607-627), in source order. -/
def relevantAuditIds : List String :=
  ["first-contentful-paint",
   "largest-contentful-paint",
   "cumulative-layout-shift",
   "total-blocking-time",
   "speed-index",
   "interactive",
   "server-response-time",
   "render-blocking-resources",
   "unminified-css",
   "unminified-javascript",
   "unused-css-rules",
   "unused-javascript",
   "uses-optimized-images",
   "uses-webp-images",
   "uses-responsive-images",
   "image-alt",
   "meta-description",
   "document-title",
   "crawlable-anchors"]

/-- The filter `audit.score === null || audit.score < 0.9`
(part_000 line 631). -/
def issueWorthy (score : Option Rat) : Bool :=
  match score with
  | none => true
  | some s => decide (s < (9 : Rat) / 10)

/-- The `for (const auditId of relevantAuditIds)` loop of the route
(part_000 lines 629-640): walk the fixed id list in order, pushing an
issue for each present audit whose score is null or `< 0.9`. -/
def extractIssues (audits : String → Option Audit) : List AuditIssue :=
  relevantAuditIds.filterMap fun auditId =>
    match audits auditId with
    | none => none
    | some audit =>
      if issueWorthy audit.score then
        some { id := auditId, title := audit.title,
               description := audit.description, score := audit.score,
               displayValue := audit.displayValue }
      else
        none

end RouteModel

section ManualUrls
/-!
Model of `parseManualUrls` (part_001 lines 212-221) and the
construction of the initial pending items in `handleManualUrlsSubmit`
(part_001 lines 260-274).
-/

/-- A split delimiter of the regex `[\n,]+`. -/
def isDelimChar (c : Char) : Bool :=
  c == '\n' || c == ','

/-- `value.split(/[\n,]+/)` on a character list: maximal runs of
delimiters separate tokens (a run at either end contributes an empty
token, exactly as the JS regex split does). -/
def splitRunsAux : List Char → List Char → Bool → List String
  | [], acc, _ => [String.mk acc.reverse]
  | c :: cs, acc, lastDelim =>
    if isDelimChar c then
      if lastDelim then
        splitRunsAux cs [] true
      else
        String.mk acc.reverse :: splitRunsAux cs [] true
    else
      splitRunsAux cs (c :: acc) false

/-- JS `String.prototype.trim`: drop whitespace from both ends
(modelled over the character list with `Char.isWhitespace`, which
covers the space, tab, CR and LF characters relevant here). -/
def jsTrim (s : String) : String :=
  String.mk
    (((s.data.dropWhile Char.isWhitespace).reverse.dropWhile
      Char.isWhitespace).reverse)

/-- The token list before de-duplication:
`value.split(/[\n,]+/).map(u => u.trim()).filter(Boolean)`
(part_001 lines 215-218). -/
def manualTokens (value : String) : List String :=
  ((splitRunsAux value.data [] false).map (fun u => jsTrim u)).filter
    (fun s => s ≠ "")

/-- `Array.from(new Set(xs))` (part_001 lines 213-214): JS `Set`
insertion keeps the first occurrence of each element, in order. -/
def insertionDedup (seen : List String) : List String → List String
  | [] => []
  | x :: xs =>
    if x ∈ seen then insertionDedup seen xs
    else x :: insertionDedup (x :: seen) xs

/-- `parseManualUrls` (part_001 lines 212-221). -/
def parseManualUrls (value : String) : List String :=
  insertionDedup [] (manualTokens value)

/-- `handleManualUrlsSubmit` (part_001 lines 260-274): wrap the parsed
urls as selected `UrlItem`s, then build one fresh `pending`
`ScanResult` per item. -/
def manualInitialResults (value : String) : List ScanResult :=
  (((parseManualUrls value).map fun url => UrlItem.mk url true).map
    fun item => freshPending item.url)

/-- Spec-side reference for first-seen-order de-duplication, written
from the spec's words ("exactly one item per distinct URL, preserving
first-seen order"): fold left, appending each URL the first time it is
seen. -/
def specFirstSeenDedup (l : List String) : List String :=
  l.foldl (fun acc x => if x ∈ acc then acc else acc ++ [x]) []

end ManualUrls

section Orchestration
/-!
Model of the scan orchestration (part_001 lines 346-523).
-/

/-- One observable step of a run: a backend call (`scanUrl`) or a pace
delay (`await new Promise(resolve => setTimeout(resolve, ms))`). -/
inductive Event where
  | call (url : String) (strategy : Strategy)
  | pace (ms : Nat)
deriving DecidableEq, Repr

/-- The two cancellation-flag reads of one loop iteration
(part_001 lines 352 and 379). -/
inductive Checkpoint where
  | preItem
  | interDevice
deriving DecidableEq, Repr

/-- Structural position of a flag read: iteration `i`'s pre-item read
is at `2*i`, its inter-device read at `2*i + 1`.  Reads occur in
strictly increasing position order during a run. -/
def cpPos (i : Nat) : Checkpoint → Nat
  | Checkpoint.preItem => 2 * i
  | Checkpoint.interDevice => 2 * i + 1

/-- Value of `stopScanningRef.current` at a read of structural position
`p`, for the execution in which the flag first reads `true` at position
`stopAt` (and `never` reads true when `stopAt = none`). -/
def stopHit (stopAt : Option Nat) (p : Nat) : Bool :=
  match stopAt with
  | none => false
  | some k => decide (k ≤ p)

/-- `scanResults.findIndex(...)` (part_001 line 360): index of the
first matching entry, `none` standing for the JS `-1`. -/
def findIndex (p : ScanResult → Prop) [DecidablePred p] :
    List ScanResult → Option Nat
  | [] => none
  | r :: rs => if p r then some 0 else (findIndex p rs).map (· + 1)

/-- `prev.map((result, idx) => idx === index ? f(result) : result)`,
the point-update shape used by every `setScanResults` call. -/
def updateAt : List ScanResult → Nat → (ScanResult → ScanResult) →
    List ScanResult
  | [], _, _ => []
  | r :: rs, 0, f => f r :: rs
  | r :: rs, n + 1, f => r :: updateAt rs n f

/-- First entry of the list holding a given url (the entry
`findIndex` targets); used to phrase per-url statements. -/
def lookupUrl (u : String) : List ScanResult → Option ScanResult
  | [] => none
  | r :: rs => if r.url = u then some r else lookupUrl u rs

/-- The `status: 'scanning'` point update (part_001 lines 366-368). -/
def setScanning (r : ScanResult) : ScanResult :=
  { r with status := ScanStatus.scanning }

/-- The catch-block point update (part_001 lines 403-409):
`status: 'error'` plus the thrown message; other fields untouched. -/
def setFailed (msg : String) (r : ScanResult) : ScanResult :=
  { r with status := ScanStatus.error, error := some msg }

/-- The completion point update (part_001 lines 387-395): both device
payloads stored, `error: undefined`. -/
def setCompleted (m d : DeviceResult) (r : ScanResult) : ScanResult :=
  { r with status := ScanStatus.completed, mobile := some m,
           desktop := some d, error := none }

/-- Auxiliary recursion: the scan loop with the url lookup performed on
the live results list.  The faithful loop `runScanAux` below performs
the lookup on the captured render closure instead; the two coincide
(`runScanAux_eq_aligned`) exactly when the closure's url column matches
the live list's, which among the source's call paths holds on the
`rescanErrorUrls` path. -/
def scanLoopAligned (backend : Backend) (stopAt : Option Nat) (total : Nat) :
    List String → Nat → List ScanResult → List ScanResult × List Event
  | [], _, results => (results, [])
  | url :: rest, i, results =>
    if stopHit stopAt (cpPos i Checkpoint.preItem) then
      -- line 352: `if (stopScanningRef.current) break`
      (results, [])
    else
      match findIndex (fun r => r.url = url) results with
      | none =>
        -- line 361: `if (resultIndex === -1) continue`
        scanLoopAligned backend stopAt total rest (i + 1) results
      | some idx =>
        -- lines 366-368: status := 'scanning'
        let results1 := updateAt results idx
          (setScanning)
        match backend url Strategy.mobile with
        | Except.error msg =>
          -- lines 401-410: catch, mark 'error', continue with next item
          let results2 := updateAt results1 idx
            (setFailed msg)
          let next := scanLoopAligned backend stopAt total rest (i + 1) results2
          (next.1, Event.call url Strategy.mobile :: next.2)
        | Except.ok mobileResult =>
          -- line 377: unconditional 3000 ms pace, then line 379 check
          if stopHit stopAt (cpPos i Checkpoint.interDevice) then
            (results1, [Event.call url Strategy.mobile, Event.pace 3000])
          else
            match backend url Strategy.desktop with
            | Except.error msg =>
              let results2 := updateAt results1 idx
                (setFailed msg)
              let next :=
                scanLoopAligned backend stopAt total rest (i + 1) results2
              (next.1,
               Event.call url Strategy.mobile :: Event.pace 3000 ::
                 Event.call url Strategy.desktop :: next.2)
            | Except.ok desktopResult =>
              -- lines 386-395: status := 'completed', both payloads,
              -- error := undefined
              let results2 := updateAt results1 idx
                (setCompleted mobileResult desktopResult)
              let next :=
                scanLoopAligned backend stopAt total rest (i + 1) results2
              (next.1,
               Event.call url Strategy.mobile :: Event.pace 3000 ::
                 Event.call url Strategy.desktop ::
                   ((if i < total - 1 then [Event.pace 3000] else []) ++
                     next.2))

/-- The loop body of `startPerformanceScanWithUrls` (part_001 lines
351-411), recursing over the remaining urls.  `i` is the loop index,
`total` the length of `urlsToScan` (for the `i < urlsToScan.length - 1`
test at line 398).  Returns the final `scanResults` and the trace.

`closure` is the render-time `scanResults` captured by the running
async function: the `findIndex` at line 360 searches this list (React
state updates never rebind it for a running closure), while the
functional `setScanResults` updates at lines 366, 387 and 403 apply at
the index so obtained to the live list.  On the fresh-scan paths the
closure is empty or stale, so a fresh run skips unmatched items or
writes at stale indices; the `rescanErrorUrls` path passes the
pre-reset list, whose url column matches the live reset list. -/
def runScanAux (backend : Backend) (stopAt : Option Nat) (total : Nat)
    (closure : List ScanResult) :
    List String → Nat → List ScanResult → List ScanResult × List Event
  | [], _, results => (results, [])
  | url :: rest, i, results =>
    if stopHit stopAt (cpPos i Checkpoint.preItem) then
      -- line 352: `if (stopScanningRef.current) break`
      (results, [])
    else
      match findIndex (fun r => r.url = url) closure with
      | none =>
        -- line 361: `if (resultIndex === -1) continue`
        runScanAux backend stopAt total closure rest (i + 1) results
      | some idx =>
        -- lines 366-368: status := 'scanning'
        let results1 := updateAt results idx setScanning
        match backend url Strategy.mobile with
        | Except.error msg =>
          -- lines 401-410: catch, mark 'error', continue with next item
          let results2 := updateAt results1 idx (setFailed msg)
          let next :=
            runScanAux backend stopAt total closure rest (i + 1) results2
          (next.1, Event.call url Strategy.mobile :: next.2)
        | Except.ok mobileResult =>
          -- line 377: unconditional 3000 ms pace, then line 379 check
          if stopHit stopAt (cpPos i Checkpoint.interDevice) then
            (results1, [Event.call url Strategy.mobile, Event.pace 3000])
          else
            match backend url Strategy.desktop with
            | Except.error msg =>
              let results2 := updateAt results1 idx (setFailed msg)
              let next :=
                runScanAux backend stopAt total closure rest (i + 1)
                  results2
              (next.1,
               Event.call url Strategy.mobile :: Event.pace 3000 ::
                 Event.call url Strategy.desktop :: next.2)
            | Except.ok desktopResult =>
              -- lines 386-395: status := 'completed', both payloads,
              -- error := undefined
              let results2 := updateAt results1 idx
                (setCompleted mobileResult desktopResult)
              let next :=
                runScanAux backend stopAt total closure rest (i + 1)
                  results2
              (next.1,
               Event.call url Strategy.mobile :: Event.pace 3000 ::
                 Event.call url Strategy.desktop ::
                   ((if i < total - 1 then [Event.pace 3000] else []) ++
                     next.2))

/-- `startPerformanceScanWithUrls` (part_001 lines 346-416) acting on
the `scanResults` list.  `closure` is the captured render-time list the
loop's `findIndex` reads; `results` is the live list the updates apply
to. -/
def startPerformanceScanWithUrls (backend : Backend)
    (stopAt : Option Nat) (urlsToScan : List String)
    (closure results : List ScanResult) : List ScanResult × List Event :=
  runScanAux backend stopAt urlsToScan.length closure urlsToScan 0 results

/-- `rescanErrorUrls` (part_001 lines 423-451), with the confirm dialog
accepted: collect the error items, reset them to `pending` with the
error cleared, and re-run the scan loop over exactly those urls.  The
run's captured closure is the pre-reset `results` list (the render in
which the button was clicked); the live list is the reset one. -/
def rescanErrorUrls (backend : Backend) (stopAt : Option Nat)
    (results : List ScanResult) : List ScanResult × List Event :=
  let errorResults := results.filter
    (fun r => decide (r.status = ScanStatus.error))
  if errorResults.isEmpty then
    (results, [])
  else
    let urlsToRescan := errorResults.map (fun r => r.url)
    let reset := results.map fun result =>
      if result.status = ScanStatus.error then
        { result with status := ScanStatus.pending, error := none }
      else result
    startPerformanceScanWithUrls backend stopAt urlsToRescan results reset

/-- `rescanSingleUrl` (part_001 lines 453-523), with the confirm dialog
accepted.  Its single cancellation-flag read (line 489) sits between
the mobile and desktop calls; the stop threshold `some 0` or less means
the flag reads true there. -/
def rescanSingleUrl (backend : Backend) (stopAt : Option Nat)
    (index : Nat) (results : List ScanResult) :
    List ScanResult × List Event :=
  match results[index]? with
  | none => (results, [])
  | some result =>
    -- lines 466-468: reset to a fresh `{ url, status: 'pending' }`
    let results0 := updateAt results index (fun r => freshPending r.url)
    -- lines 477-479: status := 'scanning'
    let results1 := updateAt results0 index
      (setScanning)
    match backend result.url Strategy.mobile with
    | Except.error msg =>
      (updateAt results1 index
        (setFailed msg),
       [Event.call result.url Strategy.mobile])
    | Except.ok mobileResult =>
      if stopHit stopAt 0 then
        -- lines 489-493: return, leaving the item 'scanning'
        (results1, [Event.call result.url Strategy.mobile,
                    Event.pace 3000])
      else
        match backend result.url Strategy.desktop with
        | Except.error msg =>
          (updateAt results1 index
            (setFailed msg),
           [Event.call result.url Strategy.mobile, Event.pace 3000,
            Event.call result.url Strategy.desktop])
        | Except.ok desktopResult =>
          (updateAt results1 index
            (setCompleted mobileResult desktopResult),
           [Event.call result.url Strategy.mobile, Event.pace 3000,
            Event.call result.url Strategy.desktop])

/-- Process-wide scan state: the `scanResults` list and the
`isScanning` flag (part_001 lines 70-71). -/
structure ScanState where
  results : List ScanResult
  isScanning : Bool
deriving DecidableEq, Repr

/-- `startPerformanceScanWithUrls` as an operation on the full state:
it sets `isScanning := true` on entry (line 347) without inspecting the
previous value, runs the loop (whose lookups read the invoking render's
captured `closure` list), and sets `isScanning := false` on exit
(line 413). -/
def startScanOp (backend : Backend) (stopAt : Option Nat)
    (urlsToScan : List String) (closure : List ScanResult)
    (s : ScanState) : ScanState × List Event :=
  let run := startPerformanceScanWithUrls backend stopAt urlsToScan
    closure s.results
  (ScanState.mk run.1 false, run.2)

end Orchestration

section Helpers

lemma updateAt_getElem?_ne (l : List ScanResult) (idx j : Nat)
    (f : ScanResult → ScanResult) (h : j ≠ idx) :
    (updateAt l idx f)[j]? = l[j]? := by
  induction l generalizing idx j with
  | nil => simp [updateAt]
  | cons r rs ih =>
    cases idx with
    | zero =>
      cases j with
      | zero => exact absurd rfl h
      | succ j' => simp [updateAt]
    | succ n =>
      cases j with
      | zero => simp [updateAt]
      | succ j' =>
        simp only [updateAt, List.getElem?_cons_succ]
        exact ih n j' (fun hc => h (by simp [hc]))

lemma updateAt_getElem?_self (l : List ScanResult) (idx : Nat)
    (f : ScanResult → ScanResult) (r : ScanResult)
    (h : l[idx]? = some r) :
    (updateAt l idx f)[idx]? = some (f r) := by
  induction l generalizing idx with
  | nil => simp at h
  | cons x xs ih =>
    cases idx with
    | zero =>
      simp only [List.getElem?_cons_zero, Option.some.injEq] at h
      simp [updateAt, h]
    | succ n =>
      simp only [List.getElem?_cons_succ] at h
      simpa [updateAt] using ih n h

lemma updateAt_mem (l : List ScanResult) (idx : Nat)
    (f : ScanResult → ScanResult) (r : ScanResult)
    (h : r ∈ updateAt l idx f) :
    r ∈ l ∨ ∃ r0, r0 ∈ l ∧ r = f r0 := by
  induction l generalizing idx with
  | nil => simp [updateAt] at h
  | cons x xs ih =>
    cases idx with
    | zero =>
      rcases List.mem_cons.mp h with h1 | h1
      · exact Or.inr ⟨x, List.mem_cons_self x xs, h1⟩
      · exact Or.inl (List.mem_cons_of_mem x h1)
    | succ n =>
      rcases List.mem_cons.mp h with h1 | h1
      · exact Or.inl (h1 ▸ List.mem_cons_self x xs)
      · rcases ih n h1 with h2 | ⟨r0, hr0, he⟩
        · exact Or.inl (List.mem_cons_of_mem x h2)
        · exact Or.inr ⟨r0, List.mem_cons_of_mem x hr0, he⟩

lemma findIndex_eq_none_iff (p : ScanResult → Prop) [DecidablePred p]
    (l : List ScanResult) :
    findIndex p l = none ↔ ∀ r ∈ l, ¬ p r := by
  induction l with
  | nil => simp [findIndex]
  | cons x xs ih =>
    by_cases hx : p x
    · simp [findIndex, hx]
    · simp [findIndex, hx, ih]

lemma findIndex_some (p : ScanResult → Prop) [DecidablePred p]
    (l : List ScanResult) (idx : Nat) (h : findIndex p l = some idx) :
    ∃ r, l[idx]? = some r ∧ p r := by
  induction l generalizing idx with
  | nil => simp [findIndex] at h
  | cons x xs ih =>
    by_cases hx : p x
    · simp only [findIndex, if_pos hx, Option.some.injEq] at h
      subst h
      exact ⟨x, by simp, hx⟩
    · simp only [findIndex, if_neg hx, Option.map_eq_some'] at h
      obtain ⟨idx', h1, h2⟩ := h
      obtain ⟨r, hr, hpr⟩ := ih idx' h1
      exact ⟨r, by simpa [← h2] using hr, hpr⟩

lemma lookupUrl_some_findIndex (u : String) (l : List ScanResult)
    (r : ScanResult) (h : lookupUrl u l = some r) :
    ∃ idx, findIndex (fun x => x.url = u) l = some idx ∧ l[idx]? = some r := by
  induction l with
  | nil => simp [lookupUrl] at h
  | cons x xs ih =>
    by_cases hx : x.url = u
    · simp only [lookupUrl, if_pos hx, Option.some.injEq] at h
      exact ⟨0, by simp [findIndex, hx], by simp [h]⟩
    · simp only [lookupUrl, if_neg hx] at h
      obtain ⟨idx, h1, h2⟩ := ih h
      exact ⟨idx + 1, by simp [findIndex, hx, h1], by simpa using h2⟩

lemma findIndex_isSome_of_lookupUrl (u : String) (l : List ScanResult)
    (h : (lookupUrl u l).isSome) :
    (findIndex (fun x => x.url = u) l).isSome := by
  obtain ⟨r, hr⟩ := Option.isSome_iff_exists.mp h
  obtain ⟨idx, h1, _⟩ := lookupUrl_some_findIndex u l r hr
  exact h1 ▸ rfl

lemma lookupUrl_updateAt_ne (u : String) (l : List ScanResult)
    (idx : Nat) (f : ScanResult → ScanResult) (r : ScanResult)
    (hidx : l[idx]? = some r) (hne : r.url ≠ u)
    (hf : (f r).url = r.url) :
    lookupUrl u (updateAt l idx f) = lookupUrl u l := by
  induction l generalizing idx with
  | nil => simp [updateAt]
  | cons x xs ih =>
    cases idx with
    | zero =>
      simp only [List.getElem?_cons_zero, Option.some.injEq] at hidx
      subst hidx
      have hxu : ¬ x.url = u := hne
      simp [updateAt, lookupUrl, hf, hxu]
    | succ n =>
      simp only [List.getElem?_cons_succ] at hidx
      by_cases hx : x.url = u
      · simp [updateAt, lookupUrl, hx]
      · simp [updateAt, lookupUrl, hx, ih n hidx]

lemma lookupUrl_updateAt_findIndex_self (u : String)
    (l : List ScanResult) (idx : Nat) (f : ScanResult → ScanResult)
    (r : ScanResult)
    (hfi : findIndex (fun x => x.url = u) l = some idx)
    (hidx : l[idx]? = some r) (hf : (f r).url = r.url) :
    lookupUrl u (updateAt l idx f) = some (f r) := by
  induction l generalizing idx with
  | nil => simp [findIndex] at hfi
  | cons x xs ih =>
    by_cases hx : x.url = u
    · simp only [findIndex, if_pos hx, Option.some.injEq] at hfi
      subst hfi
      simp only [List.getElem?_cons_zero, Option.some.injEq] at hidx
      subst hidx
      simp [updateAt, lookupUrl, hf, hx]
    · simp only [findIndex, if_neg hx, Option.map_eq_some'] at hfi
      obtain ⟨idx', h1, h2⟩ := hfi
      subst h2
      simp only [List.getElem?_cons_succ] at hidx
      simp [updateAt, lookupUrl, hx, ih idx' h1 hidx]

lemma findIndex_updateAt (u : String) (l : List ScanResult)
    (idx : Nat) (f : ScanResult → ScanResult)
    (hf : ∀ r, (f r).url = r.url) :
    findIndex (fun x => x.url = u) (updateAt l idx f) =
      findIndex (fun x => x.url = u) l := by
  induction l generalizing idx with
  | nil => simp [updateAt]
  | cons x xs ih =>
    cases idx with
    | zero => simp [updateAt, findIndex, hf x]
    | succ n => simp [updateAt, findIndex, ih n]

lemma lookupUrl_updateAt_isSome (u : String) (l : List ScanResult)
    (idx : Nat) (f : ScanResult → ScanResult)
    (hf : ∀ r, (f r).url = r.url) :
    (lookupUrl u (updateAt l idx f)).isSome = (lookupUrl u l).isSome := by
  induction l generalizing idx with
  | nil => simp [updateAt]
  | cons x xs ih =>
    cases idx with
    | zero =>
      by_cases hx : x.url = u <;> simp [updateAt, lookupUrl, hx, hf x]
    | succ n =>
      by_cases hx : x.url = u
      · simp [updateAt, lookupUrl, hx]
      · simp [updateAt, lookupUrl, hx, ih n]

end Helpers

section ClosureCongruence

lemma updateAt_map_url (l : List ScanResult) (idx : Nat)
    (f : ScanResult → ScanResult) (hf : ∀ r, (f r).url = r.url) :
    (updateAt l idx f).map (fun r => r.url) = l.map (fun r => r.url) := by
  induction l generalizing idx with
  | nil => rfl
  | cons x xs ih =>
    cases idx with
    | zero => simp [updateAt, hf x]
    | succ n => simp [updateAt, ih n]

lemma findIndex_url_congr (u : String) :
    ∀ (l1 l2 : List ScanResult),
    l1.map (fun r => r.url) = l2.map (fun r => r.url) →
    findIndex (fun r => r.url = u) l1 =
      findIndex (fun r => r.url = u) l2 := by
  intro l1
  induction l1 with
  | nil =>
    intro l2 h
    cases l2 with
    | nil => rfl
    | cons y ys => simp at h
  | cons x xs ih =>
    intro l2 h
    cases l2 with
    | nil => simp at h
    | cons y ys =>
      simp only [List.map_cons, List.cons.injEq] at h
      obtain ⟨hxy, hrest⟩ := h
      rw [findIndex, findIndex, hxy, ih ys hrest]

lemma runScanAux_eq_aligned (backend : Backend) (stopAt : Option Nat)
    (total : Nat) (q : List String) :
    ∀ (i : Nat) (closure results : List ScanResult),
    closure.map (fun r => r.url) = results.map (fun r => r.url) →
    runScanAux backend stopAt total closure q i results =
      scanLoopAligned backend stopAt total q i results := by
  induction q with
  | nil => intro i closure results _; rfl
  | cons url rest ih =>
    intro i closure results halign
    rw [runScanAux, scanLoopAligned]
    by_cases hstop : stopHit stopAt (cpPos i Checkpoint.preItem) = true
    · simp [hstop]
    · simp only [Bool.not_eq_true] at hstop
      simp only [hstop, Bool.false_eq_true, if_false]
      rw [findIndex_url_congr url closure results halign]
      cases hfi : findIndex (fun r => r.url = url) results with
      | none => exact ih (i + 1) closure results halign
      | some idx =>
        have halign1 : closure.map (fun r => r.url) =
            (updateAt results idx setScanning).map (fun r => r.url) := by
          rw [updateAt_map_url results idx setScanning (fun r => rfl)]
          exact halign
        cases hb : backend url Strategy.mobile with
        | error msg =>
          have halign2 : closure.map (fun r => r.url) =
              (updateAt (updateAt results idx setScanning) idx
                (setFailed msg)).map (fun r => r.url) := by
            rw [updateAt_map_url _ idx (setFailed msg) (fun r => rfl)]
            exact halign1
          simp only [ih (i + 1) closure _ halign2]
        | ok m =>
          by_cases hstop2 :
              stopHit stopAt (cpPos i Checkpoint.interDevice) = true
          · simp [hstop2]
          · simp only [Bool.not_eq_true] at hstop2
            simp only [hstop2, Bool.false_eq_true, if_false]
            cases hd : backend url Strategy.desktop with
            | error msg =>
              have halign2 : closure.map (fun r => r.url) =
                  (updateAt (updateAt results idx setScanning) idx
                    (setFailed msg)).map (fun r => r.url) := by
                rw [updateAt_map_url _ idx (setFailed msg) (fun r => rfl)]
                exact halign1
              simp only [ih (i + 1) closure _ halign2]
            | ok dres =>
              have halign2 : closure.map (fun r => r.url) =
                  (updateAt (updateAt results idx setScanning) idx
                    (setCompleted m dres)).map (fun r => r.url) := by
                rw [updateAt_map_url _ idx (setCompleted m dres)
                  (fun r => rfl)]
                exact halign1
              simp only [ih (i + 1) closure _ halign2]

end ClosureCongruence

section RunSemantics

/-- Net effect of one uncancelled loop iteration on its item (part_001
lines 370-410): mobile failure or desktop failure marks the item
`error` with the thrown message (leaving the stored payloads alone);
double success marks it `completed` with both payloads and the error
cleared. -/
def itemOutcome (backend : Backend) (u : String) (r : ScanResult) :
    ScanResult :=
  match backend u Strategy.mobile with
  | Except.error msg =>
    { r with status := ScanStatus.error, error := some msg }
  | Except.ok m =>
    match backend u Strategy.desktop with
    | Except.error msg =>
      { r with status := ScanStatus.error, error := some msg }
    | Except.ok d =>
      { r with status := ScanStatus.completed, mobile := some m,
               desktop := some d, error := none }

/-- Events contributed by one uncancelled loop iteration; `last` is
`i = urlsToScan.length - 1`, which suppresses the trailing inter-item
pace at part_001 lines 397-400.  A failed iteration contributes no
trailing pace at all (the catch at lines 401-410 has none). -/
def itemEvents (backend : Backend) (u : String) (last : Bool) :
    List Event :=
  match backend u Strategy.mobile with
  | Except.error _ => [Event.call u Strategy.mobile]
  | Except.ok _ =>
    match backend u Strategy.desktop with
    | Except.error _ =>
      [Event.call u Strategy.mobile, Event.pace 3000,
       Event.call u Strategy.desktop]
    | Except.ok _ =>
      [Event.call u Strategy.mobile, Event.pace 3000,
       Event.call u Strategy.desktop] ++
        (if last then [] else [Event.pace 3000])

/-- Concatenation of the per-item event blocks, the last item flagged. -/
def itemsJoin (backend : Backend) : List String → List Event
  | [] => []
  | [u] => itemEvents backend u true
  | u :: v :: rest =>
    itemEvents backend u false ++ itemsJoin backend (v :: rest)

/-- The failure-free uncancelled trace: mobile, pace, desktop for each
item in order, with an inter-item pace everywhere except after the
final item. -/
def canonicalTrace : List String → List Event
  | [] => []
  | [u] =>
    [Event.call u Strategy.mobile, Event.pace 3000,
     Event.call u Strategy.desktop]
  | u :: v :: rest =>
    Event.call u Strategy.mobile :: Event.pace 3000 ::
      Event.call u Strategy.desktop :: Event.pace 3000 ::
        canonicalTrace (v :: rest)

/-- Does every backend call of the trace have a pace delay immediately
after it?  (The literal reading of "a pace delay after each call".) -/
def paceAfterEveryCall : List Event → Bool
  | [] => true
  | Event.call _ _ :: rest =>
    match rest with
    | Event.pace _ :: _ => paceAfterEveryCall rest
    | _ => false
  | Event.pace _ :: rest => paceAfterEveryCall rest

/-- The per-item shape of the `Completed` invariant: a completed item
carries both device payloads and no error message. -/
def goodItem (r : ScanResult) : Bool :=
  match r.status with
  | ScanStatus.completed =>
    r.mobile.isSome && r.desktop.isSome && r.error.isNone
  | _ => true

lemma scanLoopAligned_call_mem (backend : Backend) (stopAt : Option Nat)
    (total : Nat) (q : List String) (i : Nat)
    (results : List ScanResult) (u : String) (d : Strategy)
    (h : Event.call u d ∈ (scanLoopAligned backend stopAt total q i results).2) :
    u ∈ q := by
  induction q generalizing i results with
  | nil => simp [scanLoopAligned] at h
  | cons url rest ih =>
    rw [scanLoopAligned] at h
    by_cases hstop : stopHit stopAt (cpPos i Checkpoint.preItem) = true
    · simp [hstop] at h
    · simp only [Bool.not_eq_true] at hstop
      simp only [hstop, Bool.false_eq_true, if_false] at h
      cases hfi : findIndex (fun r => r.url = url) results with
      | none =>
        rw [hfi] at h
        exact List.mem_cons_of_mem url (ih (i + 1) results h)
      | some idx =>
        rw [hfi] at h
        cases hb : backend url Strategy.mobile with
        | error msg =>
          rw [hb] at h
          simp only [List.mem_cons] at h
          rcases h with h | h
          · cases h; exact List.mem_cons_self _ _
          · exact List.mem_cons_of_mem url (ih (i + 1) _ h)
        | ok m =>
          rw [hb] at h
          by_cases hstop2 :
              stopHit stopAt (cpPos i Checkpoint.interDevice) = true
          · simp only [hstop2, if_true, List.mem_cons,
              List.not_mem_nil, or_false] at h
            rcases h with h | h
            · cases h; exact List.mem_cons_self _ _
            · cases h
          · simp only [Bool.not_eq_true] at hstop2
            simp only [hstop2, Bool.false_eq_true, if_false] at h
            cases hd : backend url Strategy.desktop with
            | error msg =>
              rw [hd] at h
              simp only [List.mem_cons] at h
              rcases h with h | h | h
              · cases h; exact List.mem_cons_self _ _
              · cases h
              · rcases h with h | h
                · cases h; exact List.mem_cons_self _ _
                · exact List.mem_cons_of_mem url (ih (i + 1) _ h)
            | ok dres =>
              rw [hd] at h
              simp only [List.mem_cons, List.mem_append] at h
              rcases h with h | h | h
              · cases h; exact List.mem_cons_self _ _
              · cases h
              · rcases h with h | h | h
                · cases h; exact List.mem_cons_self _ _
                · by_cases hlast : i < total - 1
                  · simp only [hlast, if_true, List.mem_singleton] at h
                    cases h
                  · simp [hlast] at h
                · exact List.mem_cons_of_mem url (ih (i + 1) _ h)

end RunSemantics

section RunLemmas

lemma scanLoopAligned_desktop_ok (backend : Backend) (stopAt : Option Nat)
    (total : Nat) (q : List String) (i : Nat)
    (results : List ScanResult) (u : String)
    (h : Event.call u Strategy.desktop ∈
      (scanLoopAligned backend stopAt total q i results).2) :
    ∃ m, backend u Strategy.mobile = Except.ok m := by
  induction q generalizing i results with
  | nil => simp [scanLoopAligned] at h
  | cons url rest ih =>
    rw [scanLoopAligned] at h
    by_cases hstop : stopHit stopAt (cpPos i Checkpoint.preItem) = true
    · simp [hstop] at h
    · simp only [Bool.not_eq_true] at hstop
      simp only [hstop, Bool.false_eq_true, if_false] at h
      cases hfi : findIndex (fun r => r.url = url) results with
      | none =>
        rw [hfi] at h
        exact ih (i + 1) results h
      | some idx =>
        rw [hfi] at h
        cases hb : backend url Strategy.mobile with
        | error msg =>
          rw [hb] at h
          simp only [List.mem_cons] at h
          rcases h with h | h
          · simp at h
          · exact ih (i + 1) _ h
        | ok m =>
          rw [hb] at h
          by_cases hstop2 :
              stopHit stopAt (cpPos i Checkpoint.interDevice) = true
          · simp only [hstop2, if_true, List.mem_cons,
              List.not_mem_nil, or_false] at h
            rcases h with h | h
            · simp at h
            · simp at h
          · simp only [Bool.not_eq_true] at hstop2
            simp only [hstop2, Bool.false_eq_true, if_false] at h
            cases hd : backend url Strategy.desktop with
            | error msg =>
              rw [hd] at h
              simp only [List.mem_cons] at h
              rcases h with h | h | h
              · simp at h
              · simp at h
              · rcases h with h | h
                · simp only [Event.call.injEq] at h
                  exact ⟨m, h.1 ▸ hb⟩
                · exact ih (i + 1) _ h
            | ok dres =>
              rw [hd] at h
              simp only [List.mem_cons, List.mem_append] at h
              rcases h with h | h | h
              · simp at h
              · simp at h
              · rcases h with h | h | h
                · simp only [Event.call.injEq] at h
                  exact ⟨m, h.1 ▸ hb⟩
                · by_cases hlast : i < total - 1
                  · simp only [hlast, if_true, List.mem_singleton] at h
                    simp at h
                  · simp [hlast] at h
                · exact ih (i + 1) _ h

lemma scanLoopAligned_frame (backend : Backend) (stopAt : Option Nat)
    (total : Nat) (q : List String) (i : Nat)
    (results : List ScanResult) (j : Nat) (r : ScanResult)
    (hj : results[j]? = some r) (hnotin : r.url ∉ q) :
    ((scanLoopAligned backend stopAt total q i results).1)[j]? = some r := by
  induction q generalizing i results with
  | nil => simpa [scanLoopAligned] using hj
  | cons url rest ih =>
    have hne_url : r.url ≠ url := fun hc => hnotin (hc ▸ List.mem_cons_self _ _)
    have hnotin' : r.url ∉ rest := fun hc => hnotin (List.mem_cons_of_mem _ hc)
    rw [scanLoopAligned]
    by_cases hstop : stopHit stopAt (cpPos i Checkpoint.preItem) = true
    · simpa [hstop] using hj
    · simp only [Bool.not_eq_true] at hstop
      simp only [hstop, Bool.false_eq_true, if_false]
      cases hfi : findIndex (fun r => r.url = url) results with
      | none => exact ih (i + 1) results hj hnotin'
      | some idx =>
        obtain ⟨rv, hrv, hrvurl⟩ :=
          findIndex_some (fun x => x.url = url) results idx hfi
        have hjne : j ≠ idx := by
          intro hc
          subst hc
          rw [hj] at hrv
          refine hne_url ?_
          rw [Option.some.inj hrv]
          exact hrvurl
        have h1 : (updateAt results idx
            (setScanning))[j]? =
              some r := by
          rw [updateAt_getElem?_ne _ _ _ _ hjne]; exact hj
        cases hb : backend url Strategy.mobile with
        | error msg =>
          have h2 : (updateAt (updateAt results idx
              (setScanning)) idx
              (setFailed msg))[j]? = some r := by
            rw [updateAt_getElem?_ne _ _ _ _ hjne]; exact h1
          exact ih (i + 1) _ h2 hnotin'
        | ok m =>
          by_cases hstop2 :
              stopHit stopAt (cpPos i Checkpoint.interDevice) = true
          · simpa [hstop2] using h1
          · simp only [Bool.not_eq_true] at hstop2
            simp only [hstop2, Bool.false_eq_true, if_false]
            cases hd : backend url Strategy.desktop with
            | error msg =>
              have h2 : (updateAt (updateAt results idx
                  (setScanning)) idx
                  (setFailed msg))[j]? = some r := by
                rw [updateAt_getElem?_ne _ _ _ _ hjne]; exact h1
              exact ih (i + 1) _ h2 hnotin'
            | ok dres =>
              have h2 : (updateAt (updateAt results idx
                  (setScanning)) idx
                  (setCompleted m dres))[j]? = some r := by
                rw [updateAt_getElem?_ne _ _ _ _ hjne]; exact h1
              exact ih (i + 1) _ h2 hnotin'

end RunLemmas

lemma scanLoopAligned_lookup_frame (backend : Backend) (stopAt : Option Nat)
    (total : Nat) (q : List String) (i : Nat)
    (results : List ScanResult) (u : String) (hu : u ∉ q) :
    lookupUrl u (scanLoopAligned backend stopAt total q i results).1 =
      lookupUrl u results := by
  induction q generalizing i results with
  | nil => simp [scanLoopAligned]
  | cons url rest ih =>
    have hne_url : url ≠ u := fun hc => hu (hc ▸ List.mem_cons_self _ _)
    have hu' : u ∉ rest := fun hc => hu (List.mem_cons_of_mem _ hc)
    rw [scanLoopAligned]
    by_cases hstop : stopHit stopAt (cpPos i Checkpoint.preItem) = true
    · simp [hstop]
    · simp only [Bool.not_eq_true] at hstop
      simp only [hstop, Bool.false_eq_true, if_false]
      cases hfi : findIndex (fun r => r.url = url) results with
      | none => exact ih (i + 1) results hu'
      | some idx =>
        obtain ⟨rv, hrv, hrvurl⟩ :=
          findIndex_some (fun x => x.url = url) results idx hfi
        have hrvne : rv.url ≠ u := fun hc => hne_url (hrvurl ▸ hc)
        have e1 : lookupUrl u (updateAt results idx
            (setScanning)) =
              lookupUrl u results :=
          lookupUrl_updateAt_ne u results idx _ rv hrv hrvne rfl
        have hrv1 : (updateAt results idx
            (setScanning))[idx]? =
              some { rv with status := ScanStatus.scanning } :=
          updateAt_getElem?_self results idx _ rv hrv
        cases hb : backend url Strategy.mobile with
        | error msg =>
          have e2 : lookupUrl u (updateAt (updateAt results idx
              (setScanning)) idx
              (setFailed msg)) =
                lookupUrl u (updateAt results idx
                  (setScanning)) :=
            lookupUrl_updateAt_ne u _ idx _ _ hrv1 hrvne rfl
          rw [ih (i + 1) _ hu', e2, e1]
        | ok m =>
          by_cases hstop2 :
              stopHit stopAt (cpPos i Checkpoint.interDevice) = true
          · simp only [hstop2, if_true]
            exact e1
          · simp only [Bool.not_eq_true] at hstop2
            simp only [hstop2, Bool.false_eq_true, if_false]
            cases hd : backend url Strategy.desktop with
            | error msg =>
              have e2 : lookupUrl u (updateAt (updateAt results idx
                  (setScanning)) idx
                  (setFailed msg)) =
                    lookupUrl u (updateAt results idx
                      (setScanning)) :=
                lookupUrl_updateAt_ne u _ idx _ _ hrv1 hrvne rfl
              rw [ih (i + 1) _ hu', e2, e1]
            | ok dres =>
              have e2 : lookupUrl u (updateAt (updateAt results idx
                  (setScanning)) idx
                  (setCompleted m dres)) =
                    lookupUrl u (updateAt results idx
                      (setScanning)) :=
                lookupUrl_updateAt_ne u _ idx _ _ hrv1 hrvne rfl
              rw [ih (i + 1) _ hu', e2, e1]

lemma scanLoopAligned_lookup_outcome (backend : Backend) (total : Nat)
    (q : List String) (i : Nat) (results : List ScanResult)
    (u : String) (r0 : ScanResult) (hq : q.Nodup) (hu : u ∈ q)
    (h0 : lookupUrl u results = some r0) :
    lookupUrl u (scanLoopAligned backend none total q i results).1 =
      some (itemOutcome backend u r0) := by
  induction q generalizing i results with
  | nil => simp at hu
  | cons url rest ih =>
    rw [scanLoopAligned]
    simp only [stopHit, Bool.false_eq_true, if_false]
    rcases List.mem_cons.mp hu with hcase | hcase
    · -- this iteration scans u itself
      subst hcase
      have hurest : u ∉ rest := (List.nodup_cons.mp hq).1
      obtain ⟨idx, hfi, hidx⟩ := lookupUrl_some_findIndex u results r0 h0
      rw [hfi]
      have hfi1 : findIndex (fun x => x.url = u) (updateAt results idx
          (setScanning)) = some idx := by
        rw [findIndex_updateAt u results idx
          (setScanning) (fun r => rfl)]
        exact hfi
      have hidx1 : (updateAt results idx
          (setScanning))[idx]? =
            some { r0 with status := ScanStatus.scanning } :=
        updateAt_getElem?_self results idx _ r0 hidx
      cases hb : backend u Strategy.mobile with
      | error msg =>
        have e2 : lookupUrl u (updateAt (updateAt results idx
            (setScanning)) idx
            (setFailed msg)) =
              some { r0 with status := ScanStatus.error,
                             error := some msg } :=
          lookupUrl_updateAt_findIndex_self u _ idx _
            { r0 with status := ScanStatus.scanning } hfi1 hidx1 rfl
        rw [scanLoopAligned_lookup_frame backend none total rest (i + 1) _ u hurest,
          e2, itemOutcome, hb]
      | ok m =>
        simp only [stopHit, Bool.false_eq_true, if_false]
        cases hd : backend u Strategy.desktop with
        | error msg =>
          have e2 : lookupUrl u (updateAt (updateAt results idx
              (setScanning)) idx
              (setFailed msg)) =
                some { r0 with status := ScanStatus.error,
                               error := some msg } :=
            lookupUrl_updateAt_findIndex_self u _ idx _
            { r0 with status := ScanStatus.scanning } hfi1 hidx1 rfl
          rw [scanLoopAligned_lookup_frame backend none total rest (i + 1) _ u
            hurest, e2, itemOutcome, hb, hd]
        | ok dres =>
          have e2 : lookupUrl u (updateAt (updateAt results idx
              (setScanning)) idx
              (setCompleted m dres)) =
                some { r0 with status := ScanStatus.completed,
                               mobile := some m, desktop := some dres,
                               error := none } :=
            lookupUrl_updateAt_findIndex_self u _ idx _
            { r0 with status := ScanStatus.scanning } hfi1 hidx1 rfl
          rw [scanLoopAligned_lookup_frame backend none total rest (i + 1) _ u
            hurest, e2, itemOutcome, hb, hd]
    · -- u sits further down the queue
      have hq' : rest.Nodup := (List.nodup_cons.mp hq).2
      have hne_url : url ≠ u := by
        intro hc
        exact (List.nodup_cons.mp hq).1 (hc ▸ hcase)
      cases hfi : findIndex (fun r => r.url = url) results with
      | none => exact ih (i + 1) results hq' hcase h0
      | some idx =>
        obtain ⟨rv, hrv, hrvurl⟩ :=
          findIndex_some (fun x => x.url = url) results idx hfi
        have hrvne : rv.url ≠ u := fun hc => hne_url (hrvurl ▸ hc)
        have e1 : lookupUrl u (updateAt results idx
            (setScanning)) =
              lookupUrl u results :=
          lookupUrl_updateAt_ne u results idx _ rv hrv hrvne rfl
        have hrv1 : (updateAt results idx
            (setScanning))[idx]? =
              some { rv with status := ScanStatus.scanning } :=
          updateAt_getElem?_self results idx _ rv hrv
        cases hb : backend url Strategy.mobile with
        | error msg =>
          refine ih (i + 1) _ hq' hcase ?_
          rw [lookupUrl_updateAt_ne u _ idx _ _ hrv1 hrvne rfl, e1]
          exact h0
        | ok m =>
          simp only [stopHit, Bool.false_eq_true, if_false]
          cases hd : backend url Strategy.desktop with
          | error msg =>
            refine ih (i + 1) _ hq' hcase ?_
            rw [lookupUrl_updateAt_ne u _ idx _ _ hrv1 hrvne rfl, e1]
            exact h0
          | ok dres =>
            refine ih (i + 1) _ hq' hcase ?_
            rw [lookupUrl_updateAt_ne u _ idx _ _ hrv1 hrvne rfl, e1]
            exact h0

lemma scanLoopAligned_processes (backend : Backend) (total : Nat)
    (q : List String) (i : Nat) (results : List ScanResult)
    (u : String) (hu : u ∈ q) (hfound : (lookupUrl u results).isSome) :
    Event.call u Strategy.mobile ∈
      (scanLoopAligned backend none total q i results).2 ∧
    ∀ m, backend u Strategy.mobile = Except.ok m →
      Event.call u Strategy.desktop ∈
        (scanLoopAligned backend none total q i results).2 := by
  induction q generalizing i results with
  | nil => simp at hu
  | cons url rest ih =>
    rw [scanLoopAligned]
    simp only [stopHit, Bool.false_eq_true, if_false]
    rcases List.mem_cons.mp hu with hcase | hcase
    · subst hcase
      obtain ⟨ru, hru⟩ := Option.isSome_iff_exists.mp hfound
      obtain ⟨idx, hfi, hidx⟩ := lookupUrl_some_findIndex u results ru hru
      rw [hfi]
      cases hb : backend u Strategy.mobile with
      | error msg =>
        refine ⟨List.mem_cons_self _ _, fun m hm => ?_⟩
        simp at hm
      | ok m =>
        simp only [stopHit, Bool.false_eq_true, if_false]
        cases hd : backend u Strategy.desktop with
        | error msg => exact ⟨by simp, fun m' hm => by simp⟩
        | ok dres => exact ⟨by simp, fun m' hm => by simp⟩
    · cases hfi : findIndex (fun r => r.url = url) results with
      | none => exact ih (i + 1) results hcase hfound
      | some idx =>
        have hfound1 : (lookupUrl u (updateAt results idx
            (setScanning))).isSome := by
          rw [lookupUrl_updateAt_isSome u results idx setScanning (fun r => rfl)]
          exact hfound
        cases hb : backend url Strategy.mobile with
        | error msg =>
          have hfound2 : (lookupUrl u (updateAt (updateAt results idx
              (setScanning)) idx
              (setFailed msg))).isSome := by
            rw [lookupUrl_updateAt_isSome u _ idx (setFailed msg) (fun r => rfl)]
            exact hfound1
          have hrec := ih (i + 1) _ hcase hfound2
          exact ⟨List.mem_cons_of_mem _ hrec.1,
            fun m hm => List.mem_cons_of_mem _ (hrec.2 m hm)⟩
        | ok m =>
          simp only [stopHit, Bool.false_eq_true, if_false]
          cases hd : backend url Strategy.desktop with
          | error msg =>
            have hfound2 : (lookupUrl u (updateAt (updateAt results idx
                (setScanning)) idx
                (setFailed msg))).isSome := by
              rw [lookupUrl_updateAt_isSome u _ idx (setFailed msg) (fun r => rfl)]
              exact hfound1
            have hrec := ih (i + 1) _ hcase hfound2
            refine ⟨?_, fun m' hm => ?_⟩
            · exact List.mem_cons_of_mem _ (List.mem_cons_of_mem _
                (List.mem_cons_of_mem _ hrec.1))
            · exact List.mem_cons_of_mem _ (List.mem_cons_of_mem _
                (List.mem_cons_of_mem _ (hrec.2 m' hm)))
          | ok dres =>
            have hfound2 : (lookupUrl u (updateAt (updateAt results idx
                (setScanning)) idx
                (setCompleted m dres))).isSome := by
              rw [lookupUrl_updateAt_isSome u _ idx (setCompleted m dres) (fun r => rfl)]
              exact hfound1
            have hrec := ih (i + 1) _ hcase hfound2
            refine ⟨?_, fun m' hm => ?_⟩
            · exact List.mem_cons_of_mem _ (List.mem_cons_of_mem _
                (List.mem_cons_of_mem _ (List.mem_append_right _ hrec.1)))
            · exact List.mem_cons_of_mem _ (List.mem_cons_of_mem _
                (List.mem_cons_of_mem _ (List.mem_append_right _
                  (hrec.2 m' hm))))

lemma itemsJoin_cons (backend : Backend) (u : String)
    (rest : List String) :
    itemsJoin backend (u :: rest) =
      itemEvents backend u rest.isEmpty ++ itemsJoin backend rest := by
  cases rest with
  | nil => simp [itemsJoin, List.isEmpty]
  | cons v r => simp [itemsJoin, List.isEmpty]

lemma canonicalTrace_cons (u : String) (rest : List String) :
    canonicalTrace (u :: rest) =
      (Event.call u Strategy.mobile :: Event.pace 3000 ::
        Event.call u Strategy.desktop ::
          (if rest.isEmpty then [] else [Event.pace 3000])) ++
        canonicalTrace rest := by
  cases rest with
  | nil => simp [canonicalTrace, List.isEmpty]
  | cons v r => simp [canonicalTrace, List.isEmpty]

lemma scanLoopAligned_trace (backend : Backend) (q : List String) :
    ∀ (total i : Nat) (results : List ScanResult),
    total = i + q.length →
    (∀ u ∈ q, (lookupUrl u results).isSome) →
    (scanLoopAligned backend none total q i results).2 = itemsJoin backend q := by
  induction q with
  | nil => intro total i results _ _; simp [scanLoopAligned, itemsJoin]
  | cons url rest ih =>
    intro total i results htot hfound
    have hfu : (lookupUrl url results).isSome :=
      hfound url (List.mem_cons_self _ _)
    obtain ⟨idx, hfi⟩ := Option.isSome_iff_exists.mp
      (findIndex_isSome_of_lookupUrl url results hfu)
    have hfound' : ∀ f : ScanResult → ScanResult,
        (∀ r : ScanResult, (f r).url = r.url) →
        ∀ u ∈ rest, (lookupUrl u (updateAt (updateAt results idx
          (setScanning)) idx f)).isSome := by
      intro f hf u hu
      rw [lookupUrl_updateAt_isSome u _ idx f hf]
      rw [lookupUrl_updateAt_isSome u results idx setScanning
        (fun r => rfl)]
      exact hfound u (List.mem_cons_of_mem _ hu)
    have htot' : total = (i + 1) + rest.length := by
      rw [htot]; simp [List.length_cons]; omega
    rw [scanLoopAligned, itemsJoin_cons]
    simp only [stopHit, Bool.false_eq_true, if_false]
    rw [hfi]
    cases hb : backend url Strategy.mobile with
    | error msg =>
      simp [itemEvents, hb,
        ih total (i + 1) _ htot' (hfound' (setFailed msg) (fun r => rfl))]
    | ok m =>
      cases hd : backend url Strategy.desktop with
      | error msg =>
        simp [stopHit, itemEvents, hb, hd,
          ih total (i + 1) _ htot' (hfound' (setFailed msg) (fun r => rfl))]
      | ok dres =>
        by_cases hrest : rest.isEmpty = true
        · have hlen : rest.length = 0 := by
            cases rest with
            | nil => rfl
            | cons v r => simp [List.isEmpty] at hrest
          have hcond : ¬ i < total - 1 := by omega
          simp [stopHit, itemEvents, hb, hd, hcond, hrest,
            ih total (i + 1) _ htot'
              (hfound' (setCompleted m dres) (fun r => rfl))]
        · have hlen : 0 < rest.length := by
            cases rest with
            | nil => simp [List.isEmpty] at hrest
            | cons v r => simp
          have hcond : i < total - 1 := by omega
          simp [stopHit, itemEvents, hb, hd, hcond, hrest,
            ih total (i + 1) _ htot'
              (hfound' (setCompleted m dres) (fun r => rfl))]

lemma itemsJoin_eq_canonicalTrace (backend : Backend) (q : List String)
    (h : ∀ u ∈ q, (∃ m, backend u Strategy.mobile = Except.ok m) ∧
      (∃ d, backend u Strategy.desktop = Except.ok d)) :
    itemsJoin backend q = canonicalTrace q := by
  induction q with
  | nil => rfl
  | cons u rest ih =>
    obtain ⟨⟨m, hm⟩, ⟨d, hd⟩⟩ := h u (List.mem_cons_self _ _)
    rw [itemsJoin_cons, canonicalTrace_cons, itemEvents, hm, hd,
      ih (fun v hv => h v (List.mem_cons_of_mem _ hv))]
    cases hrest : rest.isEmpty <;> simp [hrest]

lemma lookupUrl_url (u : String) (l : List ScanResult) (r : ScanResult)
    (h : lookupUrl u l = some r) : r.url = u := by
  induction l with
  | nil => simp [lookupUrl] at h
  | cons x xs ih =>
    by_cases hx : x.url = u
    · simp only [lookupUrl, if_pos hx, Option.some.injEq] at h
      rw [← h]; exact hx
    · simp only [lookupUrl, if_neg hx] at h
      exact ih h

lemma scanLoopAligned_stop_now (backend : Backend) (stopAt : Option Nat)
    (total : Nat) (q : List String) (i : Nat)
    (results : List ScanResult)
    (h : stopHit stopAt (cpPos i Checkpoint.preItem) = true) :
    scanLoopAligned backend stopAt total q i results = (results, []) := by
  cases q with
  | nil => rfl
  | cons url rest => rw [scanLoopAligned, if_pos h]

lemma scanLoopAligned_stop_after_mobile (backend : Backend) (k total : Nat) :
    ∀ (pre : List String) (u : String) (post : List String) (i : Nat)
      (results : List ScanResult) (r0 : ScanResult) (m : DeviceResult),
    (pre ++ u :: post).Nodup →
    lookupUrl u results = some r0 →
    backend u Strategy.mobile = Except.ok m →
    2 * (i + pre.length) + 1 ≤ k →
    k ≤ 2 * (i + pre.length) + 2 →
    (∀ v ∈ post, ∃ rv, lookupUrl v results = some rv ∧
       rv.status = ScanStatus.pending) →
    (∃ rf, lookupUrl u
        (scanLoopAligned backend (some k) total (pre ++ u :: post) i results).1 =
          some rf ∧
      (rf.status = ScanStatus.completed ∨ rf.status = ScanStatus.error ∨
        rf.status = ScanStatus.scanning)) ∧
    (∀ v ∈ post, ∃ rv, lookupUrl v
        (scanLoopAligned backend (some k) total (pre ++ u :: post) i results).1 =
          some rv ∧ rv.status = ScanStatus.pending) := by
  intro pre
  induction pre with
  | nil =>
    intro u post i results r0 m hnd h0 hb hk1 hk2 hpost
    simp only [List.nil_append] at hnd ⊢
    have hupost : u ∉ post := (List.nodup_cons.mp hnd).1
    have hr0url : r0.url = u := lookupUrl_url u results r0 h0
    obtain ⟨idx, hfi, hidx⟩ := lookupUrl_some_findIndex u results r0 h0
    simp only [List.length_nil, Nat.add_zero] at hk1 hk2
    have hs1 : stopHit (some k) (cpPos i Checkpoint.preItem) = false := by
      simp only [stopHit, cpPos, decide_eq_false_iff_not]
      omega
    by_cases hkmid : k ≤ 2 * i + 1
    · -- the flag is observed at the inter-device checkpoint: the run
      -- breaks leaving the item 'scanning'
      have hs2 : stopHit (some k) (cpPos i Checkpoint.interDevice) = true := by
        simp only [stopHit, cpPos, decide_eq_true_eq]
        omega
      have hrun : scanLoopAligned backend (some k) total (u :: post) i results =
          (updateAt results idx setScanning,
           [Event.call u Strategy.mobile, Event.pace 3000]) := by
        rw [scanLoopAligned, hs1, hfi, hb, hs2]
        simp
      rw [hrun]
      constructor
      · exact ⟨setScanning r0,
          lookupUrl_updateAt_findIndex_self u results idx setScanning r0
            hfi hidx rfl,
          Or.inr (Or.inr rfl)⟩
      · intro v hv
        obtain ⟨rv, hrv, hrvp⟩ := hpost v hv
        have hne : r0.url ≠ v := by
          rw [hr0url]; intro hc; exact hupost (hc ▸ hv)
        refine ⟨rv, ?_, hrvp⟩
        rw [lookupUrl_updateAt_ne v results idx setScanning r0 hidx hne rfl]
        exact hrv
    · -- the flag reads false at the inter-device checkpoint, the item
      -- finishes both calls, and the loop halts at the next pre-item
      -- checkpoint
      have hs2 : stopHit (some k) (cpPos i Checkpoint.interDevice) = false := by
        simp only [stopHit, cpPos, decide_eq_false_iff_not]
        omega
      have hs3 : stopHit (some k) (cpPos (i + 1) Checkpoint.preItem) = true := by
        simp only [stopHit, cpPos, decide_eq_true_eq]
        omega
      have hfi1 : findIndex (fun x => x.url = u)
          (updateAt results idx setScanning) = some idx := by
        rw [findIndex_updateAt u results idx setScanning (fun r => rfl)]
        exact hfi
      have hidx1 : (updateAt results idx setScanning)[idx]? =
          some (setScanning r0) :=
        updateAt_getElem?_self results idx setScanning r0 hidx
      have htail : ∀ f : ScanResult → ScanResult,
          (∀ r : ScanResult, (f r).url = r.url) →
          ∀ v ∈ post, ∃ rv, lookupUrl v
            (updateAt (updateAt results idx setScanning) idx f) = some rv ∧
              rv.status = ScanStatus.pending := by
        intro f hf v hv
        obtain ⟨rv, hrv, hrvp⟩ := hpost v hv
        have hne : r0.url ≠ v := by
          rw [hr0url]; intro hc; exact hupost (hc ▸ hv)
        have hne1 : (setScanning r0).url ≠ v := hne
        refine ⟨rv, ?_, hrvp⟩
        rw [lookupUrl_updateAt_ne v _ idx f (setScanning r0) hidx1 hne1
          (hf _)]
        rw [lookupUrl_updateAt_ne v results idx setScanning r0 hidx hne rfl]
        exact hrv
      cases hd : backend u Strategy.desktop with
      | error msg =>
        have hrun : (scanLoopAligned backend (some k) total (u :: post) i
            results).1 =
              updateAt (updateAt results idx setScanning) idx
                (setFailed msg) := by
          rw [scanLoopAligned, hs1, hfi, hb, hs2, hd]
          simp only [Bool.false_eq_true, if_false]
          rw [scanLoopAligned_stop_now backend (some k) total post (i + 1) _ hs3]
        rw [hrun]
        constructor
        · exact ⟨setFailed msg (setScanning r0),
            lookupUrl_updateAt_findIndex_self u _ idx (setFailed msg)
              (setScanning r0) hfi1 hidx1 rfl,
            Or.inr (Or.inl rfl)⟩
        · exact htail (setFailed msg) (fun r => rfl)
      | ok dres =>
        have hrun : (scanLoopAligned backend (some k) total (u :: post) i
            results).1 =
              updateAt (updateAt results idx setScanning) idx
                (setCompleted m dres) := by
          rw [scanLoopAligned, hs1, hfi, hb, hs2, hd]
          simp only [Bool.false_eq_true, if_false]
          rw [scanLoopAligned_stop_now backend (some k) total post (i + 1) _ hs3]
        rw [hrun]
        constructor
        · exact ⟨setCompleted m dres (setScanning r0),
            lookupUrl_updateAt_findIndex_self u _ idx (setCompleted m dres)
              (setScanning r0) hfi1 hidx1 rfl,
            Or.inl rfl⟩
        · exact htail (setCompleted m dres) (fun r => rfl)
  | cons w pre' ih =>
    intro u post i results r0 m hnd h0 hb hk1 hk2 hpost
    simp only [List.cons_append] at hnd ⊢
    have hwrest : w ∉ pre' ++ u :: post := (List.nodup_cons.mp hnd).1
    have hnd' : (pre' ++ u :: post).Nodup := (List.nodup_cons.mp hnd).2
    have hwu : w ≠ u := by
      intro hc
      subst hc
      exact hwrest (List.mem_append_right pre' (List.mem_cons_self w post))
    have hwpost : ∀ v ∈ post, w ≠ v := by
      intro v hv hc
      subst hc
      exact hwrest (List.mem_append_right pre' (List.mem_cons_of_mem u hv))
    simp only [List.length_cons] at hk1 hk2
    have hk1' : 2 * ((i + 1) + pre'.length) + 1 ≤ k := by omega
    have hk2' : k ≤ 2 * ((i + 1) + pre'.length) + 2 := by omega
    have hs1 : stopHit (some k) (cpPos i Checkpoint.preItem) = false := by
      simp only [stopHit, cpPos, decide_eq_false_iff_not]
      omega
    rw [scanLoopAligned, hs1]
    simp only [Bool.false_eq_true, if_false]
    cases hfi : findIndex (fun r => r.url = w) results with
    | none => exact ih u post (i + 1) results r0 m hnd' h0 hb hk1' hk2' hpost
    | some idx =>
      obtain ⟨rv, hrv, hrvurl⟩ :=
        findIndex_some (fun x => x.url = w) results idx hfi
      have hrvne_u : rv.url ≠ u := fun hc => hwu (hrvurl ▸ hc)
      have hrv1 : (updateAt results idx setScanning)[idx]? =
          some (setScanning rv) :=
        updateAt_getElem?_self results idx setScanning rv hrv
      have hstep : ∀ f : ScanResult → ScanResult,
          (∀ r : ScanResult, (f r).url = r.url) →
          lookupUrl u (updateAt (updateAt results idx setScanning) idx f) =
              some r0 ∧
          (∀ v ∈ post, ∃ rv2, lookupUrl v
            (updateAt (updateAt results idx setScanning) idx f) =
              some rv2 ∧ rv2.status = ScanStatus.pending) := by
        intro f hf
        constructor
        · rw [lookupUrl_updateAt_ne u _ idx f (setScanning rv) hrv1
            hrvne_u (hf _)]
          rw [lookupUrl_updateAt_ne u results idx setScanning rv hrv
            hrvne_u rfl]
          exact h0
        · intro v hv
          obtain ⟨rv2, hrv2, hrv2p⟩ := hpost v hv
          have hnev : rv.url ≠ v := fun hc => hwpost v hv (hrvurl ▸ hc)
          refine ⟨rv2, ?_, hrv2p⟩
          rw [lookupUrl_updateAt_ne v _ idx f (setScanning rv) hrv1
            hnev (hf _)]
          rw [lookupUrl_updateAt_ne v results idx setScanning rv hrv
            hnev rfl]
          exact hrv2
      have hs2 : stopHit (some k) (cpPos i Checkpoint.interDevice) = false := by
        simp only [stopHit, cpPos, decide_eq_false_iff_not]
        omega
      cases hbw : backend w Strategy.mobile with
      | error msg =>
        obtain ⟨hu2, hpost2⟩ := hstep (setFailed msg) (fun r => rfl)
        exact ih u post (i + 1) _ r0 m hnd' hu2 hb hk1' hk2' hpost2
      | ok mres =>
        rw [hs2]
        simp only [Bool.false_eq_true, if_false]
        cases hdw : backend w Strategy.desktop with
        | error msg =>
          obtain ⟨hu2, hpost2⟩ := hstep (setFailed msg) (fun r => rfl)
          exact ih u post (i + 1) _ r0 m hnd' hu2 hb hk1' hk2' hpost2
        | ok dres =>
          obtain ⟨hu2, hpost2⟩ := hstep (setCompleted mres dres)
            (fun r => rfl)
          exact ih u post (i + 1) _ r0 m hnd' hu2 hb hk1' hk2' hpost2

section DedupLemmas

lemma insertionDedup_mem_iff (l : List String) :
    ∀ (seen : List String) (x : String),
    x ∈ insertionDedup seen l ↔ x ∈ l ∧ x ∉ seen := by
  induction l with
  | nil => intro seen x; simp [insertionDedup]
  | cons y ys ih =>
    intro seen x
    by_cases hy : y ∈ seen
    · rw [insertionDedup, if_pos hy, ih]
      constructor
      · exact fun ⟨h1, h2⟩ => ⟨List.mem_cons_of_mem _ h1, h2⟩
      · rintro ⟨h1, h2⟩
        rcases List.mem_cons.mp h1 with h | h
        · exact absurd (h ▸ hy) h2
        · exact ⟨h, h2⟩
    · rw [insertionDedup, if_neg hy]
      constructor
      · intro hx
        rcases List.mem_cons.mp hx with h | h
        · exact ⟨h ▸ List.mem_cons_self _ _, h ▸ hy⟩
        · obtain ⟨h1, h2⟩ := (ih (y :: seen) x).mp h
          exact ⟨List.mem_cons_of_mem _ h1,
            fun hc => h2 (List.mem_cons_of_mem _ hc)⟩
      · rintro ⟨h1, h2⟩
        rcases List.mem_cons.mp h1 with h | h
        · exact h ▸ List.mem_cons_self _ _
        · by_cases hxy : x = y
          · exact hxy ▸ List.mem_cons_self _ _
          · exact List.mem_cons_of_mem _ ((ih (y :: seen) x).mpr
              ⟨h, by simp [hxy, h2]⟩)

lemma insertionDedup_nodup (l : List String) :
    ∀ seen : List String, (insertionDedup seen l).Nodup := by
  induction l with
  | nil => intro seen; simp [insertionDedup]
  | cons y ys ih =>
    intro seen
    by_cases hy : y ∈ seen
    · rw [insertionDedup, if_pos hy]; exact ih seen
    · rw [insertionDedup, if_neg hy]
      refine List.nodup_cons.mpr ⟨?_, ih (y :: seen)⟩
      intro hc
      exact ((insertionDedup_mem_iff ys (y :: seen) y).mp hc).2
        (List.mem_cons_self _ _)

lemma insertionDedup_congr (l : List String) :
    ∀ s1 s2 : List String, (∀ a, a ∈ s1 ↔ a ∈ s2) →
    insertionDedup s1 l = insertionDedup s2 l := by
  induction l with
  | nil => intro s1 s2 _; rfl
  | cons y ys ih =>
    intro s1 s2 h
    by_cases hy : y ∈ s1
    · rw [insertionDedup, if_pos hy, insertionDedup,
        if_pos ((h y).mp hy)]
      exact ih s1 s2 h
    · rw [insertionDedup, if_neg hy, insertionDedup,
        if_neg (fun hc => hy ((h y).mpr hc))]
      refine congrArg (y :: ·) (ih (y :: s1) (y :: s2) ?_)
      intro a
      simp [h a]

lemma foldl_firstSeen (l : List String) :
    ∀ acc : List String,
    List.foldl (fun acc x => if x ∈ acc then acc else acc ++ [x]) acc l =
      acc ++ insertionDedup acc l := by
  induction l with
  | nil => intro acc; simp [insertionDedup]
  | cons y ys ih =>
    intro acc
    by_cases hy : y ∈ acc
    · rw [List.foldl_cons, if_pos hy, insertionDedup, if_pos hy]
      exact ih acc
    · rw [List.foldl_cons, if_neg hy, insertionDedup, if_neg hy, ih]
      have hmemiff : ∀ a, a ∈ acc ++ [y] ↔ a ∈ y :: acc := by
        intro a
        simp only [List.mem_append, List.mem_singleton, List.mem_cons]
        tauto
      rw [insertionDedup_congr ys (acc ++ [y]) (y :: acc) hmemiff]
      simp

lemma specFirstSeenDedup_eq (l : List String) :
    specFirstSeenDedup l = insertionDedup [] l := by
  rw [specFirstSeenDedup, foldl_firstSeen l []]
  simp

lemma manualInitialResults_map_url (value : String) :
    (manualInitialResults value).map (fun r => r.url) =
      parseManualUrls value := by
  rw [manualInitialResults]
  generalize parseManualUrls value = l
  induction l with
  | nil => rfl
  | cons x xs ih => simpa [freshPending] using ih

end DedupLemmas

section InvariantMachinery

lemma updateAt_good (l : List ScanResult) (idx : Nat)
    (f : ScanResult → ScanResult) (hf : ∀ r, goodItem (f r) = true)
    (hl : ∀ r ∈ l, goodItem r = true) :
    ∀ r ∈ updateAt l idx f, goodItem r = true := by
  intro r hr
  rcases updateAt_mem l idx f r hr with h | ⟨r0, _, he⟩
  · exact hl r h
  · rw [he]; exact hf r0

lemma runScanAux_good (backend : Backend) (stopAt : Option Nat)
    (total : Nat) (closure : List ScanResult) (q : List String) (i : Nat)
    (results : List ScanResult)
    (h : ∀ r ∈ results, goodItem r = true) :
    ∀ r ∈ (runScanAux backend stopAt total closure q i results).1,
      goodItem r = true := by
  induction q generalizing i results with
  | nil => simpa [runScanAux] using h
  | cons url rest ih =>
    rw [runScanAux]
    by_cases hstop : stopHit stopAt (cpPos i Checkpoint.preItem) = true
    · simpa [hstop] using h
    · simp only [Bool.not_eq_true] at hstop
      simp only [hstop, Bool.false_eq_true, if_false]
      cases hfi : findIndex (fun r => r.url = url) closure with
      | none => exact ih (i + 1) results h
      | some idx =>
        have h1 : ∀ r ∈ updateAt results idx setScanning,
            goodItem r = true :=
          updateAt_good results idx setScanning (fun r => rfl) h
        cases hb : backend url Strategy.mobile with
        | error msg =>
          exact ih (i + 1) _
            (updateAt_good _ idx (setFailed msg) (fun r => rfl) h1)
        | ok m =>
          by_cases hstop2 :
              stopHit stopAt (cpPos i Checkpoint.interDevice) = true
          · simpa [hstop2] using h1
          · simp only [Bool.not_eq_true] at hstop2
            simp only [hstop2, Bool.false_eq_true, if_false]
            cases hd : backend url Strategy.desktop with
            | error msg =>
              exact ih (i + 1) _
                (updateAt_good _ idx (setFailed msg) (fun r => rfl) h1)
            | ok dres =>
              exact ih (i + 1) _
                (updateAt_good _ idx (setCompleted m dres) (fun r => rfl) h1)

lemma rescanErrorUrls_good (backend : Backend) (stopAt : Option Nat)
    (results : List ScanResult)
    (h : ∀ r ∈ results, goodItem r = true) :
    ∀ r ∈ (rescanErrorUrls backend stopAt results).1,
      goodItem r = true := by
  rw [rescanErrorUrls]
  by_cases hE : (results.filter
      (fun r => decide (r.status = ScanStatus.error))).isEmpty = true
  · simpa [hE] using h
  · simp only [hE, Bool.false_eq_true, if_false]
    refine runScanAux_good backend stopAt _ results _ 0 _ ?_
    intro r hr
    obtain ⟨r0, hr0, he⟩ := List.mem_map.mp hr
    by_cases hs : r0.status = ScanStatus.error
    · rw [← he, if_pos hs]; rfl
    · rw [← he, if_neg hs]; exact h r0 hr0

lemma rescanSingleUrl_good (backend : Backend) (stopAt : Option Nat)
    (index : Nat) (results : List ScanResult)
    (h : ∀ r ∈ results, goodItem r = true) :
    ∀ r ∈ (rescanSingleUrl backend stopAt index results).1,
      goodItem r = true := by
  cases hidx : results[index]? with
  | none =>
    intro r hr
    simp only [rescanSingleUrl, hidx] at hr
    exact h r hr
  | some result =>
    have h0 : ∀ r ∈ updateAt results index
        (fun r => freshPending r.url), goodItem r = true :=
      updateAt_good results index _ (fun r => rfl) h
    have h1 : ∀ r ∈ updateAt (updateAt results index
        (fun r => freshPending r.url)) index setScanning,
        goodItem r = true :=
      updateAt_good _ index setScanning (fun r => rfl) h0
    cases hb : backend result.url Strategy.mobile with
    | error msg =>
      intro r hr
      simp only [rescanSingleUrl, hidx, hb] at hr
      exact updateAt_good _ index (setFailed msg) (fun r => rfl) h1 r hr
    | ok m =>
      by_cases hstop2 : stopHit stopAt 0 = true
      · intro r hr
        simp only [rescanSingleUrl, hidx, hb, hstop2, if_true] at hr
        exact h1 r hr
      · have hsf : stopHit stopAt 0 = false := by
          simpa using hstop2
        cases hd : backend result.url Strategy.desktop with
        | error msg =>
          intro r hr
          simp only [rescanSingleUrl, hidx, hb, hsf, Bool.false_eq_true,
            if_false, hd] at hr
          exact updateAt_good _ index (setFailed msg) (fun r => rfl) h1 r hr
        | ok dres =>
          intro r hr
          simp only [rescanSingleUrl, hidx, hb, hsf, Bool.false_eq_true,
            if_false, hd] at hr
          exact updateAt_good _ index (setCompleted m dres) (fun r => rfl)
            h1 r hr

/-- The user-triggerable operations on the `scanResults` list: building
a fresh queue (`initialResults` in `startPerformanceScan` /
`handleManualUrlsSubmit`), running the scan loop, `rescanErrorUrls` and
`rescanSingleUrl`.  `stop()` is captured by the `stopAt` threshold each
run carries. -/
inductive ScanOp where
  | init (urls : List String)
  | start (backend : Backend) (stopAt : Option Nat) (urls : List String)
      (closure : List ScanResult)
  | retryFailed (backend : Backend) (stopAt : Option Nat)
  | retryOne (backend : Backend) (stopAt : Option Nat) (index : Nat)

/-- Effect of one operation on the `scanResults` list. -/
def applyScanOp : ScanOp → List ScanResult → List ScanResult
  | ScanOp.init urls, _ => urls.map freshPending
  | ScanOp.start backend stopAt urls closure, results =>
    (startPerformanceScanWithUrls backend stopAt urls closure results).1
  | ScanOp.retryFailed backend stopAt, results =>
    (rescanErrorUrls backend stopAt results).1
  | ScanOp.retryOne backend stopAt index, results =>
    (rescanSingleUrl backend stopAt index results).1

/-- States of the `scanResults` list reachable by any sequence of the
operations, from the empty initial state. -/
inductive ReachableResults : List ScanResult → Prop
  | empty : ReachableResults []
  | step (o : ScanOp) {s : List ScanResult} :
      ReachableResults s → ReachableResults (applyScanOp o s)

lemma goodItem_spec (r : ScanResult) (hg : goodItem r = true)
    (hc : r.status = ScanStatus.completed) :
    r.mobile.isSome = true ∧ r.desktop.isSome = true ∧ r.error = none := by
  rw [goodItem, hc] at hg
  simp only [Bool.and_eq_true] at hg
  exact ⟨hg.1.1, hg.1.2, Option.isNone_iff_eq_none.mp hg.2⟩

end InvariantMachinery

section MoreHelpers

lemma runScanAux_pace (backend : Backend) (stopAt : Option Nat)
    (total : Nat) (closure : List ScanResult) (q : List String) (i : Nat)
    (results : List ScanResult) (d : Nat)
    (h : Event.pace d ∈
      (runScanAux backend stopAt total closure q i results).2) :
    d = 3000 := by
  induction q generalizing i results with
  | nil => simp [runScanAux] at h
  | cons url rest ih =>
    rw [runScanAux] at h
    by_cases hstop : stopHit stopAt (cpPos i Checkpoint.preItem) = true
    · simp [hstop] at h
    · simp only [Bool.not_eq_true] at hstop
      simp only [hstop, Bool.false_eq_true, if_false] at h
      cases hfi : findIndex (fun r => r.url = url) closure with
      | none =>
        rw [hfi] at h
        exact ih (i + 1) results h
      | some idx =>
        rw [hfi] at h
        cases hb : backend url Strategy.mobile with
        | error msg =>
          rw [hb] at h
          simp only [List.mem_cons] at h
          rcases h with h | h
          · simp at h
          · exact ih (i + 1) _ h
        | ok m =>
          rw [hb] at h
          by_cases hstop2 :
              stopHit stopAt (cpPos i Checkpoint.interDevice) = true
          · simp only [hstop2, if_true, List.mem_cons,
              List.not_mem_nil, or_false] at h
            rcases h with h | h
            · simp at h
            · simpa using h
          · simp only [Bool.not_eq_true] at hstop2
            simp only [hstop2, Bool.false_eq_true, if_false] at h
            cases hd : backend url Strategy.desktop with
            | error msg =>
              rw [hd] at h
              simp only [List.mem_cons] at h
              rcases h with h | h | h
              · simp at h
              · simpa using h
              · rcases h with h | h
                · simp at h
                · exact ih (i + 1) _ h
            | ok dres =>
              rw [hd] at h
              simp only [List.mem_cons, List.mem_append] at h
              rcases h with h | h | h
              · simp at h
              · simpa using h
              · rcases h with h | h | h
                · simp at h
                · by_cases hlast : i < total - 1
                  · simp only [hlast, if_true, List.mem_singleton] at h
                    simpa using h
                  · simp [hlast] at h
                · exact ih (i + 1) _ h

lemma rescanSingleUrl_pace (backend : Backend) (stopAt : Option Nat)
    (index : Nat) (results : List ScanResult) (d : Nat)
    (h : Event.pace d ∈ (rescanSingleUrl backend stopAt index results).2) :
    d = 3000 := by
  cases hidx : results[index]? with
  | none => simp [rescanSingleUrl, hidx] at h
  | some result =>
    cases hb : backend result.url Strategy.mobile with
    | error msg =>
      simp [rescanSingleUrl, hidx, hb] at h
    | ok m =>
      by_cases hstop2 : stopHit stopAt 0 = true
      · simp only [rescanSingleUrl, hidx, hb, hstop2, if_true,
          List.mem_cons, List.not_mem_nil, or_false] at h
        rcases h with h | h
        · simp at h
        · simpa using h
      · have hsf : stopHit stopAt 0 = false := by simpa using hstop2
        cases hd : backend result.url Strategy.desktop with
        | error msg =>
          simp only [rescanSingleUrl, hidx, hb, hsf, Bool.false_eq_true,
            if_false, hd, List.mem_cons, List.not_mem_nil, or_false] at h
          rcases h with h | h | h
          · simp at h
          · simpa using h
          · simp at h
        | ok dres =>
          simp only [rescanSingleUrl, hidx, hb, hsf, Bool.false_eq_true,
            if_false, hd, List.mem_cons, List.not_mem_nil, or_false] at h
          rcases h with h | h | h
          · simp at h
          · simpa using h
          · simp at h

lemma getElem?_mem_scan (l : List ScanResult) (j : Nat) (r : ScanResult)
    (h : l[j]? = some r) : r ∈ l := by
  induction l generalizing j with
  | nil => simp at h
  | cons x xs ih =>
    cases j with
    | zero =>
      simp only [List.getElem?_cons_zero, Option.some.injEq] at h
      exact h ▸ List.mem_cons_self _ _
    | succ n =>
      simp only [List.getElem?_cons_succ] at h
      exact List.mem_cons_of_mem _ (ih n h)

lemma nodup_url_unique (l : List ScanResult)
    (hnd : (l.map (fun r => r.url)).Nodup) (j : Nat) (r r' : ScanResult)
    (hj : l[j]? = some r) (hr' : r' ∈ l) (hurl : r'.url = r.url) :
    r' = r := by
  induction l generalizing j with
  | nil => simp at hj
  | cons x xs ih =>
    simp only [List.map_cons, List.nodup_cons] at hnd
    cases j with
    | zero =>
      simp only [List.getElem?_cons_zero, Option.some.injEq] at hj
      subst hj
      rcases List.mem_cons.mp hr' with h | h
      · exact h
      · exact absurd (hurl ▸ List.mem_map_of_mem (fun r => r.url) h)
          hnd.1
    | succ n =>
      simp only [List.getElem?_cons_succ] at hj
      rcases List.mem_cons.mp hr' with h | h
      · subst h
        have hmem : r.url ∈ xs.map (fun r => r.url) :=
          List.mem_map_of_mem (fun r => r.url)
            (getElem?_mem_scan xs n r hj)
        rw [← hurl] at hmem
        exact absurd hmem hnd.1
      · exact ih hnd.2 n hj h

lemma lookupUrl_isSome_of_mem (u : String) (l : List ScanResult)
    (r : ScanResult) (hr : r ∈ l) (hurl : r.url = u) :
    (lookupUrl u l).isSome := by
  induction l with
  | nil => simp at hr
  | cons x xs ih =>
    by_cases hx : x.url = u
    · simp [lookupUrl, hx]
    · rcases List.mem_cons.mp hr with h | h
      · exact absurd (h ▸ hurl) hx
      · simp only [lookupUrl, if_neg hx]
        exact ih h

lemma lookupUrl_map_freshPending (urls : List String) (u : String)
    (hu : u ∈ urls) :
    lookupUrl u (urls.map freshPending) = some (freshPending u) := by
  induction urls with
  | nil => simp at hu
  | cons v vs ih =>
    by_cases hv : v = u
    · subst hv
      simp [lookupUrl, freshPending]
    · rcases List.mem_cons.mp hu with h | h
      · exact absurd h.symm hv
      · have : (freshPending v).url = v := rfl
        simp only [List.map_cons, lookupUrl, this, if_neg hv]
        exact ih h

end MoreHelpers

section RouteLemmas

lemma extractIssues_mem (audits : String → Option Audit)
    (issue : AuditIssue) (h : issue ∈ extractIssues audits) :
    issue.id ∈ relevantAuditIds ∧ issueWorthy issue.score = true := by
  rw [extractIssues] at h
  obtain ⟨auditId, hid, hf⟩ := List.mem_filterMap.mp h
  cases ha : audits auditId with
  | none =>
    simp only [ha] at hf
    exact Option.noConfusion hf
  | some audit =>
    simp only [ha] at hf
    by_cases hw : issueWorthy audit.score = true
    · rw [if_pos hw] at hf
      have he := Option.some.inj hf
      rw [← he]
      exact ⟨hid, hw⟩
    · rw [if_neg hw] at hf
      exact Option.noConfusion hf

lemma filterMap_ids_sublist (f : String → Option AuditIssue)
    (hf : ∀ a b, f a = some b → b.id = a) (l : List String) :
    List.Sublist ((l.filterMap f).map (fun i => i.id)) l := by
  induction l with
  | nil => simp
  | cons a rest ih =>
    cases hfa : f a with
    | none =>
      rw [List.filterMap_cons_none hfa]
      exact List.Sublist.cons a ih
    | some b =>
      rw [List.filterMap_cons_some hfa, List.map_cons, hf a b hfa]
      exact List.Sublist.cons₂ a ih

lemma extractIssues_ids_sublist (audits : String → Option Audit) :
    List.Sublist ((extractIssues audits).map (fun i => i.id))
      relevantAuditIds := by
  rw [extractIssues]
  apply filterMap_ids_sublist
  intro a b hab
  cases ha : audits a with
  | none =>
    simp only [ha] at hab
    exact Option.noConfusion hab
  | some audit =>
    simp only [ha] at hab
    by_cases hw : issueWorthy audit.score = true
    · rw [if_pos hw] at hab
      rw [← Option.some.inj hab]
    · rw [if_neg hw] at hab
      exact Option.noConfusion hab

end RouteLemmas

section UiGuards
/-!
The rendering conditions that gate the scan-triggering controls in the
page component; these are the only overlap protection the source has.
-/

/-- `disabled={isLoadingUrls || !isFormValid || isScanning}` on the
form submit button (part_001 line 1031), which triggers `handleScan` or
`handleManualUrlsSubmit`. -/
def submitButtonDisabled (isLoadingUrls isFormValid isScanning : Bool) :
    Bool :=
  isLoadingUrls || !isFormValid || isScanning

/-- Rendering condition of the Rescan Errors button (part_001 line
1198): `!isScanning && scanResults.some(r => r.status === 'error')`. -/
def rescanErrorsButtonShown (isScanning : Bool)
    (results : List ScanResult) : Bool :=
  !isScanning && results.any (fun r => decide (r.status = ScanStatus.error))

/-- Rendering condition of the per-item Retry button (part_001 lines
1267 and 1272): shown inside the status cell of an `error` item, and
only when `!isScanning`. -/
def retryButtonShown (isScanning : Bool) (r : ScanResult) : Bool :=
  decide (r.status = ScanStatus.error) && !isScanning

end UiGuards

section DemoData

/-- The concrete score set of the spec's example scenario. -/
def demoScores : PageSpeedMetrics :=
  { performance := 95, accessibility := 100, bestPractices := 92,
    seo := 100 }

/-- A concrete successful device payload. -/
def demoDevice : DeviceResult :=
  { scores := demoScores, fieldData := {}, issues := [] }

/-- A backend whose every call succeeds with `demoDevice`. -/
def okBackend : Backend := fun _ _ => Except.ok demoDevice

/-- A backend failing exactly the mobile call of one url. -/
def mobileFailsOn (bad : String) : Backend := fun u strat =>
  if u = bad ∧ strat = Strategy.mobile then Except.error "boom"
  else Except.ok demoDevice

end DemoData

section ClaimC9Helper

lemma reachable_good (results : List ScanResult)
    (h : ReachableResults results) : ∀ r ∈ results, goodItem r = true := by
  induction h with
  | empty => intro r hr; simp at hr
  | step o hs ih =>
    cases o with
    | init urls =>
      intro r hr
      obtain ⟨u, _, he⟩ := List.mem_map.mp hr
      rw [← he]; rfl
    | start backend stopAt urls closure =>
      exact runScanAux_good backend stopAt urls.length closure urls 0 _ ih
    | retryFailed backend stopAt =>
      exact rescanErrorUrls_good backend stopAt _ ih
    | retryOne backend stopAt index =>
      exact rescanSingleUrl_good backend stopAt index _ ih

end ClaimC9Helper

section Claims

/-- Url column of the error-to-pending reset in `rescanErrorUrls`
(part_001 lines 441-443): the reset changes only statuses and error
fields, so the pre-reset closure and the reset live list agree on
urls. -/
lemma reset_map_url (results : List ScanResult) :
    (results.map (fun result =>
      if result.status = ScanStatus.error then
        { result with status := ScanStatus.pending, error := none }
      else result)).map (fun r => r.url) =
    results.map (fun r => r.url) := by
  induction results with
  | nil => rfl
  | cons x xs ih =>
    by_cases h : x.status = ScanStatus.error <;> simp [h, ih]

/-- C1: in a run state with both Completed and Failed items (urls
distinct), `rescanErrorUrls` contacts the backend only for urls of
items that were Failed, issues the mobile call for each of them, and
stores every item that was not Failed unchanged — url, status, device
payloads and error all identical — when the retry run finishes.  This
is the one run path whose captured closure (the pre-reset list) has the
same url column as the live list, so the stale-closure lookup is
harmless here. -/
theorem C1_retry_isolation (backend : Backend)
    (results : List ScanResult)
    (hnodup : (results.map (fun r => r.url)).Nodup)
    (hC : ∃ r ∈ results, r.status = ScanStatus.completed)
    (hF : ∃ r ∈ results, r.status = ScanStatus.error) :
    (∀ u d, Event.call u d ∈ (rescanErrorUrls backend none results).2 →
       u ∈ (results.filter
         (fun r => decide (r.status = ScanStatus.error))).map
           (fun r => r.url)) ∧
    (∀ u ∈ (results.filter
        (fun r => decide (r.status = ScanStatus.error))).map
          (fun r => r.url),
       Event.call u Strategy.mobile ∈
         (rescanErrorUrls backend none results).2) ∧
    (∀ (j : Nat) (r : ScanResult), results[j]? = some r →
       r.status ≠ ScanStatus.error →
       ((rescanErrorUrls backend none results).1)[j]? = some r) := by
  by_cases hE : (results.filter
      (fun r => decide (r.status = ScanStatus.error))).isEmpty = true
  · have hnil : results.filter
        (fun r => decide (r.status = ScanStatus.error)) = [] :=
      List.isEmpty_iff.mp hE
    refine ⟨?_, ?_, ?_⟩
    · intro u d hmem
      simp [rescanErrorUrls, hE] at hmem
    · intro u hu
      rw [hnil] at hu
      simp at hu
    · intro j r hj _
      simp only [rescanErrorUrls, hE, if_true]
      exact hj
  · simp only [Bool.not_eq_true] at hE
    simp only [rescanErrorUrls, hE, Bool.false_eq_true, if_false]
    have hcong : startPerformanceScanWithUrls backend none
        ((results.filter
          (fun r => decide (r.status = ScanStatus.error))).map
            (fun r => r.url)) results
        (results.map (fun result =>
          if result.status = ScanStatus.error then
            { result with status := ScanStatus.pending, error := none }
          else result)) =
      scanLoopAligned backend none
        (((results.filter
          (fun r => decide (r.status = ScanStatus.error))).map
            (fun r => r.url)).length)
        ((results.filter
          (fun r => decide (r.status = ScanStatus.error))).map
            (fun r => r.url)) 0
        (results.map (fun result =>
          if result.status = ScanStatus.error then
            { result with status := ScanStatus.pending, error := none }
          else result)) := by
      rw [startPerformanceScanWithUrls]
      exact runScanAux_eq_aligned backend none _ _ 0 results _
        (reset_map_url results).symm
    rw [hcong]
    refine ⟨?_, ?_, ?_⟩
    · intro u d hmem
      exact scanLoopAligned_call_mem backend none _ _ 0 _ u d hmem
    · intro u hu
      obtain ⟨r, hrF, hurl⟩ := List.mem_map.mp hu
      have hrmem : r ∈ results := List.mem_of_mem_filter hrF
      have hrE : r.status = ScanStatus.error := by
        simpa using List.of_mem_filter hrF
      have hmem' : (if r.status = ScanStatus.error then
          { r with status := ScanStatus.pending, error := none }
          else r) ∈ results.map (fun result =>
            if result.status = ScanStatus.error then
              { result with status := ScanStatus.pending, error := none }
            else result) :=
        List.mem_map_of_mem _ hrmem
      rw [if_pos hrE] at hmem'
      have hfound : (lookupUrl u (results.map (fun result =>
          if result.status = ScanStatus.error then
            { result with status := ScanStatus.pending, error := none }
          else result))).isSome :=
        lookupUrl_isSome_of_mem u _ _ hmem' hurl
      exact (scanLoopAligned_processes backend _ _ 0 _ u hu hfound).1
    · intro j r hj hstat
      have hj' : (results.map (fun result =>
          if result.status = ScanStatus.error then
            { result with status := ScanStatus.pending, error := none }
          else result))[j]? = some r := by
        rw [List.getElem?_map, hj]
        simp [if_neg hstat]
      have hnotin : r.url ∉ (results.filter
          (fun r => decide (r.status = ScanStatus.error))).map
            (fun r => r.url) := by
        intro hc
        obtain ⟨r', hr'F, hurl'⟩ := List.mem_map.mp hc
        have hr'mem : r' ∈ results := List.mem_of_mem_filter hr'F
        have hr'E : r'.status = ScanStatus.error := by
          simpa using List.of_mem_filter hr'F
        have heq : r' = r :=
          nodup_url_unique results hnodup j r r' hj hr'mem hurl'
        exact hstat (heq ▸ hr'E)
      exact scanLoopAligned_frame backend none _ _ 0 _ j r hj' hnotin

/-- C1 witness: a Completed item and a Failed item; the retry contacts
the backend for the failed url and leaves the completed entry intact. -/
theorem C1_retry_isolation_witness :
    Event.call "b" Strategy.mobile ∈
      (rescanErrorUrls okBackend none
        [ScanResult.mk "a" ScanStatus.completed none (some demoDevice)
          (some demoDevice) none,
         ScanResult.mk "b" ScanStatus.error none none none
          (some "x")]).2 ∧
    ((rescanErrorUrls okBackend none
        [ScanResult.mk "a" ScanStatus.completed none (some demoDevice)
          (some demoDevice) none,
         ScanResult.mk "b" ScanStatus.error none none none
          (some "x")]).1)[0]? =
      some (ScanResult.mk "a" ScanStatus.completed none (some demoDevice)
        (some demoDevice) none) :=
  ⟨(C1_retry_isolation okBackend _ (by decide)
      ⟨ScanResult.mk "a" ScanStatus.completed none (some demoDevice)
        (some demoDevice) none, by decide, rfl⟩
      ⟨ScanResult.mk "b" ScanStatus.error none none none (some "x"),
        by decide, rfl⟩).2.1 "b" (by decide),
   (C1_retry_isolation okBackend _ (by decide)
      ⟨ScanResult.mk "a" ScanStatus.completed none (some demoDevice)
        (some demoDevice) none, by decide, rfl⟩
      ⟨ScanResult.mk "b" ScanStatus.error none none none (some "x"),
        by decide, rfl⟩).2.2 0
      (ScanResult.mk "a" ScanStatus.completed none (some demoDevice)
        (some demoDevice) none) (by decide) (by decide)⟩

/-- C2 counterexample: a real retry run (the path whose closure and
live list share urls) over three Failed items, every backend call
succeeding, with `stop()` taking effect right after the first item's
mobile call completed (flag first reads true at its inter-device
checkpoint, structural position 1).  The loop breaks at part_001 line
379 before the desktop call and before any further status write, so
the item ends in status `scanning` — neither `completed` nor `error`
as the claim requires (the tail does remain pending). -/
theorem C2_cancellation_counterexample :
    (rescanErrorUrls okBackend (some 1)
        [ScanResult.mk "a" ScanStatus.error none none none (some "e1"),
         ScanResult.mk "b" ScanStatus.error none none none (some "e2"),
         ScanResult.mk "c" ScanStatus.error none none none
           (some "e3")]).1.map (fun r => r.status) =
      [ScanStatus.scanning, ScanStatus.pending, ScanStatus.pending] ∧
    ¬ (ScanStatus.scanning = ScanStatus.completed ∨
        ScanStatus.scanning = ScanStatus.error) :=
  ⟨by decide, by decide⟩

/-- C2 amended: in a run whose captured render closure presents the
queue urls at the live positions (true of the `rescanErrorUrls` path;
on fresh paths the stale closure makes the run skip items instead),
with at least three distinct-url items, if `stop()` takes effect after
item `u`'s mobile call completes and before the next item starts, then
when the run halts `u` ends Completed, Failed, or still Scanning (the
latter exactly when cancellation is observed at the inter-device
checkpoint), and every item after `u` remains Pending. -/
theorem C2_cancellation_amended (backend : Backend)
    (closure results : List ScanResult)
    (pre : List String) (u : String) (post : List String)
    (k : Nat) (m : DeviceResult) (r0 : ScanResult)
    (halign : closure.map (fun r => r.url) =
      results.map (fun r => r.url))
    (hnodup : (pre ++ u :: post).Nodup)
    (hlen : 3 ≤ (pre ++ u :: post).length)
    (h0 : lookupUrl u results = some r0)
    (hb : backend u Strategy.mobile = Except.ok m)
    (hk1 : 2 * pre.length + 1 ≤ k)
    (hk2 : k ≤ 2 * pre.length + 2)
    (hpost : ∀ v ∈ post, ∃ rv, lookupUrl v results = some rv ∧
       rv.status = ScanStatus.pending) :
    (∃ rf, lookupUrl u (startPerformanceScanWithUrls backend (some k)
        (pre ++ u :: post) closure results).1 = some rf ∧
      (rf.status = ScanStatus.completed ∨ rf.status = ScanStatus.error ∨
        rf.status = ScanStatus.scanning)) ∧
    (∀ v ∈ post, ∃ rv, lookupUrl v (startPerformanceScanWithUrls backend
        (some k) (pre ++ u :: post) closure results).1 = some rv ∧
      rv.status = ScanStatus.pending) := by
  have hcong : startPerformanceScanWithUrls backend (some k)
      (pre ++ u :: post) closure results =
    scanLoopAligned backend (some k) (pre ++ u :: post).length
      (pre ++ u :: post) 0 results := by
    rw [startPerformanceScanWithUrls]
    exact runScanAux_eq_aligned backend (some k) _ _ 0 closure results
      halign
  rw [hcong]
  exact scanLoopAligned_stop_after_mobile backend k
    (pre ++ u :: post).length pre u post 0 results r0 m hnodup h0 hb
    (by simpa using hk1) (by simpa using hk2) hpost

/-- C2 amended witness: aligned queue a, b, c; stop threshold 3 = item
b's inter-device checkpoint. -/
theorem C2_cancellation_amended_witness :
    (∃ rf, lookupUrl "b" (startPerformanceScanWithUrls okBackend (some 3)
        (["a"] ++ "b" :: ["c"])
        ((["a", "b", "c"] : List String).map freshPending)
        ((["a", "b", "c"] : List String).map freshPending)).1 = some rf ∧
      (rf.status = ScanStatus.completed ∨ rf.status = ScanStatus.error ∨
        rf.status = ScanStatus.scanning)) ∧
    (∀ v ∈ (["c"] : List String), ∃ rv,
      lookupUrl v (startPerformanceScanWithUrls okBackend (some 3)
        (["a"] ++ "b" :: ["c"])
        ((["a", "b", "c"] : List String).map freshPending)
        ((["a", "b", "c"] : List String).map freshPending)).1 = some rv ∧
      rv.status = ScanStatus.pending) :=
  C2_cancellation_amended okBackend
    ((["a", "b", "c"] : List String).map freshPending)
    ((["a", "b", "c"] : List String).map freshPending)
    ["a"] "b" ["c"] 3 demoDevice (freshPending "b") rfl (by decide)
    (by decide) (by decide) rfl (by decide) (by decide)
    (by
      intro v hv
      rw [List.mem_singleton] at hv
      subst hv
      exact ⟨freshPending "c", rfl, rfl⟩)

/-- C3 counterexample, two real executions: (1) a fresh sitemap run —
the start button is rendered only while `scanResults` is empty
(part_001 line 1087), so the loop's captured closure is the empty
list, its `findIndex` returns -1 for every url, and the run issues no
backend calls at all; (2) even on the aligned retry path the final
call has no pace after it — the inter-item pace of part_001 lines
397-400 is skipped for the last item. -/
theorem C3_ordering_counterexample :
    (startPerformanceScanWithUrls okBackend none ["a"] []
        ((["a"] : List String).map freshPending)).2 = [] ∧
    (rescanErrorUrls okBackend none
        [ScanResult.mk "a" ScanStatus.error none none none
          (some "e")]).2 =
      [Event.call "a" Strategy.mobile, Event.pace 3000,
       Event.call "a" Strategy.desktop] ∧
    paceAfterEveryCall (rescanErrorUrls okBackend none
        [ScanResult.mk "a" ScanStatus.error none none none
          (some "e")]).2 = false :=
  ⟨by decide, by decide, by decide⟩

/-- C3 amended: for an uncancelled failure-free run whose captured
closure presents the queue's urls (as on the retry path; fresh runs
read a stale closure and skip unmatched items entirely), the trace is
exactly mobile then desktop per item in queue order, with a 3000 ms
pace after every call except the final one. -/
theorem C3_ordering_amended (backend : Backend)
    (closure results : List ScanResult) (urls : List String)
    (halign : closure.map (fun r => r.url) =
      results.map (fun r => r.url))
    (hfound : ∀ u ∈ urls, (lookupUrl u results).isSome)
    (hok : ∀ u ∈ urls, (∃ m, backend u Strategy.mobile = Except.ok m) ∧
      (∃ d, backend u Strategy.desktop = Except.ok d)) :
    (startPerformanceScanWithUrls backend none urls closure results).2 =
      canonicalTrace urls := by
  have hcong : startPerformanceScanWithUrls backend none urls closure
      results = scanLoopAligned backend none urls.length urls 0
        results := by
    rw [startPerformanceScanWithUrls]
    exact runScanAux_eq_aligned backend none _ _ 0 closure results halign
  rw [hcong,
    scanLoopAligned_trace backend urls urls.length 0 results (by simp)
      hfound,
    itemsJoin_eq_canonicalTrace backend urls hok]

/-- C3 amended witness: two-item all-success aligned run. -/
theorem C3_ordering_amended_witness :
    (startPerformanceScanWithUrls okBackend none ["a", "b"]
        ((["a", "b"] : List String).map freshPending)
        ((["a", "b"] : List String).map freshPending)).2 =
      canonicalTrace ["a", "b"] :=
  C3_ordering_amended okBackend _ _ ["a", "b"] rfl
    (fun u hu => by rw [lookupUrl_map_freshPending ["a", "b"] u hu]; rfl)
    (fun u hu => ⟨⟨demoDevice, rfl⟩, ⟨demoDevice, rfl⟩⟩)

/-- C4 counterexample, a real stale-closure run: the user submits the
manual list x, a (that fresh run's own closure is empty, so it scans
nothing and the items stay pending), then resubmits the list a, b.
The second run's closure is the old list, so for item a the `findIndex`
at part_001 line 360 returns the stale index 1 and the catch writes
`error` there: b's entry is marked Failed although b was never called,
the item a whose mobile call actually threw stays `pending`, and b —
absent from the closure — is skipped rather than processed. -/
theorem C4_failure_containment_counterexample :
    (startPerformanceScanWithUrls (mobileFailsOn "a") none ["a", "b"]
        [freshPending "x", freshPending "a"]
        ((["a", "b"] : List String).map freshPending)).1 =
      [freshPending "a",
       ScanResult.mk "b" ScanStatus.error none none none
         (some "boom")] ∧
    (startPerformanceScanWithUrls (mobileFailsOn "a") none ["a", "b"]
        [freshPending "x", freshPending "a"]
        ((["a", "b"] : List String).map freshPending)).2 =
      [Event.call "a" Strategy.mobile] ∧
    (freshPending "a").status ≠ ScanStatus.error ∧
    Event.call "b" Strategy.mobile ∉
      (startPerformanceScanWithUrls (mobileFailsOn "a") none ["a", "b"]
        [freshPending "x", freshPending "a"]
        ((["a", "b"] : List String).map freshPending)).2 :=
  ⟨by decide, by decide, by decide, by decide⟩

/-- C4 amended: in a run whose captured closure presents the queue
urls at the live positions (the retry path), an item whose mobile call
throws gets no desktop call, ends Failed with the thrown message and
an unchanged (absent) desktopResult, and every queue item present in
the store still receives its mobile call.  In a stale-closure run the
Failed write lands at the stale index — possibly a different item —
and unmatched items are skipped entirely. -/
theorem C4_failure_containment_amended (backend : Backend)
    (closure results : List ScanResult) (urls : List String)
    (u msg : String) (r0 : ScanResult)
    (halign : closure.map (fun r => r.url) =
      results.map (fun r => r.url))
    (hnodup : urls.Nodup) (hu : u ∈ urls)
    (h0 : lookupUrl u results = some r0) (hdesk : r0.desktop = none)
    (hb : backend u Strategy.mobile = Except.error msg) :
    Event.call u Strategy.desktop ∉
      (startPerformanceScanWithUrls backend none urls closure
        results).2 ∧
    lookupUrl u (startPerformanceScanWithUrls backend none urls closure
        results).1 =
      some { r0 with status := ScanStatus.error, error := some msg } ∧
    ({ r0 with status := ScanStatus.error, error := some msg } : ScanResult).desktop = none ∧
    (∀ v ∈ urls, (lookupUrl v results).isSome →
      Event.call v Strategy.mobile ∈
        (startPerformanceScanWithUrls backend none urls closure
          results).2) := by
  have hcong : startPerformanceScanWithUrls backend none urls closure
      results = scanLoopAligned backend none urls.length urls 0
        results := by
    rw [startPerformanceScanWithUrls]
    exact runScanAux_eq_aligned backend none _ _ 0 closure results halign
  rw [hcong]
  refine ⟨?_, ?_, ?_, ?_⟩
  · intro hmem
    obtain ⟨m, hm⟩ :=
      scanLoopAligned_desktop_ok backend none _ _ 0 _ u hmem
    rw [hb] at hm
    exact Except.noConfusion hm
  · have hout := scanLoopAligned_lookup_outcome backend urls.length urls
      0 results u r0 hnodup hu h0
    rw [hout, itemOutcome, hb]
  · exact hdesk
  · intro v hv hfv
    exact (scanLoopAligned_processes backend urls.length urls 0 results v
      hv hfv).1

/-- C4 amended witness: aligned run, mobile of a fails, b succeeds. -/
theorem C4_failure_containment_amended_witness :
    Event.call "a" Strategy.desktop ∉
      (startPerformanceScanWithUrls (mobileFailsOn "a") none ["a", "b"]
        ((["a", "b"] : List String).map freshPending)
        ((["a", "b"] : List String).map freshPending)).2 ∧
    lookupUrl "a" (startPerformanceScanWithUrls (mobileFailsOn "a") none
        ["a", "b"] ((["a", "b"] : List String).map freshPending)
        ((["a", "b"] : List String).map freshPending)).1 =
      some { freshPending "a" with status := ScanStatus.error, error := some "boom" } ∧
    ({ freshPending "a" with status := ScanStatus.error, error := some "boom" } : ScanResult).desktop = none ∧
    (∀ v ∈ (["a", "b"] : List String),
      (lookupUrl v ((["a", "b"] : List String).map
        freshPending)).isSome →
      Event.call v Strategy.mobile ∈
        (startPerformanceScanWithUrls (mobileFailsOn "a") none ["a", "b"]
          ((["a", "b"] : List String).map freshPending)
          ((["a", "b"] : List String).map freshPending)).2) :=
  C4_failure_containment_amended (mobileFailsOn "a") _ _ ["a", "b"] "a"
    "boom" (freshPending "a") rfl (by decide) (by decide) (by decide)
    rfl rfl

/-- C5 counterexample: a real retry run where cancellation is
signalled during the item's mobile call (the flag reads true at the
very next checkpoint, threshold 1), yet the post-mobile wait still
suspends the caller for the full 3000 ms — the trace records
`pace 3000`, not an immediate return; the wait at part_001 line 377 is
an unconditional `setTimeout(3000)`. -/
theorem C5_pacer_counterexample :
    (rescanErrorUrls okBackend (some 1)
        [ScanResult.mk "a" ScanStatus.error none none none
          (some "e")]).2 =
      [Event.call "a" Strategy.mobile, Event.pace 3000] :=
  by decide

/-- C5 amended: every pace of a run — in the batch loop under any
closure and cancellation timing, and in the single-url rescan —
suspends for the full 3000 ms; cancellation never shortens a wait, it
is only observed at the checkpoint after the wait completes. -/
theorem C5_pacer_amended (backend : Backend) (stopAt : Option Nat)
    (urls : List String) (closure results : List ScanResult)
    (index : Nat) :
    (∀ d, Event.pace d ∈ (startPerformanceScanWithUrls backend stopAt
        urls closure results).2 → d = 3000) ∧
    (∀ d, Event.pace d ∈ (rescanSingleUrl backend stopAt index
        results).2 → d = 3000) :=
  ⟨fun d h => runScanAux_pace backend stopAt urls.length closure urls 0
      results d h,
   fun d h => rescanSingleUrl_pace backend stopAt index results d h⟩

/-- C5 amended witness. -/
theorem C5_pacer_amended_witness :
    Event.pace 3000 ∈ (startPerformanceScanWithUrls okBackend none ["a"]
        ((["a"] : List String).map freshPending)
        ((["a"] : List String).map freshPending)).2 ∧ 3000 = 3000 :=
  ⟨by decide, (C5_pacer_amended okBackend none ["a"]
      ((["a"] : List String).map freshPending)
      ((["a"] : List String).map freshPending) 0).1 3000 (by decide)⟩

/-- C6 counterexample: the scan functions contain no RunState guard.
From a state with `isScanning = true` (Running), invoking the scan
operation is not rejected: it issues backend calls (nonempty trace) and
mutates the stored results. -/
theorem C6_guard_counterexample :
    (ScanState.mk ((["a"] : List String).map freshPending)
        true).isScanning = true ∧
    (startScanOp okBackend none ["a"]
        ((["a"] : List String).map freshPending)
        (ScanState.mk ((["a"] : List String).map freshPending) true)).2 ≠
      [] ∧
    (startScanOp okBackend none ["a"]
        ((["a"] : List String).map freshPending)
        (ScanState.mk ((["a"] : List String).map freshPending)
          true)).1.results ≠
      (["a"] : List String).map freshPending :=
  ⟨rfl, by decide, by decide⟩

/-- C6 amended: the handler functions themselves perform no
`RunState = Running` check (invoking them while Running starts a
second loop, see the counterexample); overlapping runs are prevented
only at the UI layer: while `isScanning` is true the form submit
button is disabled and the Rescan Errors and per-item Retry buttons
are not rendered. -/
theorem C6_guard_amended (isLoadingUrls isFormValid : Bool)
    (results : List ScanResult) (r : ScanResult) :
    submitButtonDisabled isLoadingUrls isFormValid true = true ∧
    rescanErrorsButtonShown true results = false ∧
    retryButtonShown true r = false := by
  refine ⟨?_, ?_, ?_⟩
  · simp [submitButtonDisabled]
  · simp [rescanErrorsButtonShown]
  · simp [retryButtonShown]

/-- C7: initializing from the manual URL input yields one Pending item
per distinct cleaned token, in first-seen order: the urls are
duplicate-free, their set equals the token set, the sequence equals the
spec-side first-seen-order dedup of the tokens, and every produced item
is a fresh Pending item. -/
theorem C7_dedup_firstSeen (value : String) :
    ((manualInitialResults value).map (fun r => r.url)).Nodup ∧
    (∀ u, u ∈ (manualInitialResults value).map (fun r => r.url) ↔
       u ∈ manualTokens value) ∧
    (manualInitialResults value).map (fun r => r.url) =
      specFirstSeenDedup (manualTokens value) ∧
    ∀ r ∈ manualInitialResults value, r = freshPending r.url ∧
      r.status = ScanStatus.pending := by
  have hmap := manualInitialResults_map_url value
  refine ⟨?_, ?_, ?_, ?_⟩
  · rw [hmap]
    exact insertionDedup_nodup _ []
  · intro u
    rw [hmap, parseManualUrls, insertionDedup_mem_iff]
    simp
  · rw [hmap, parseManualUrls, specFirstSeenDedup_eq]
  · intro r hr
    rw [manualInitialResults] at hr
    obtain ⟨item, _, he⟩ := List.mem_map.mp hr
    constructor
    · rw [← he]; rfl
    · rw [← he]; rfl

/-- C7 witness: duplicate input url collapses, first-seen order kept,
items pending. -/
theorem C7_dedup_firstSeen_witness :
    (manualInitialResults "a,b,a").map (fun r => r.url) =
      specFirstSeenDedup (manualTokens "a,b,a") ∧
    (freshPending "a").status = ScanStatus.pending :=
  ⟨(C7_dedup_firstSeen "a,b,a").2.2.1,
   ((C7_dedup_firstSeen "a,b,a").2.2.2 (freshPending "a")
     (by decide)).2⟩

/-- C8 counterexample, a real retry run: item a's mobile call throws,
item b succeeds.  The catch block of part_001 lines 401-410 contains
no wait, so item b's mobile call is issued immediately after the
failed call — the event following the failed call is the next item's
call, not a pace. -/
theorem C8_interitem_pace_counterexample :
    (rescanErrorUrls (mobileFailsOn "a") none
        [ScanResult.mk "a" ScanStatus.error none none none (some "e1"),
         ScanResult.mk "b" ScanStatus.error none none none
           (some "e2")]).2 =
      [Event.call "a" Strategy.mobile, Event.call "b" Strategy.mobile,
       Event.pace 3000, Event.call "b" Strategy.desktop] ∧
    (∀ d, ((rescanErrorUrls (mobileFailsOn "a") none
        [ScanResult.mk "a" ScanStatus.error none none none (some "e1"),
         ScanResult.mk "b" ScanStatus.error none none none
           (some "e2")]).2)[1]? ≠ some (Event.pace d)) := by
  refine ⟨by decide, ?_⟩
  intro d h
  have h1 : ((rescanErrorUrls (mobileFailsOn "a") none
      [ScanResult.mk "a" ScanStatus.error none none none (some "e1"),
       ScanResult.mk "b" ScanStatus.error none none none
         (some "e2")]).2)[1]? =
        some (Event.call "b" Strategy.mobile) := by decide
  rw [h1] at h
  simp at h

/-- C8 amended: an uncancelled run whose captured closure presents the
queue urls (retry path; in a stale run a missing item is skipped and
never called at all) has a trace that is the concatenation of per-item
blocks, and a failed item's block ends with its failing call — no
inter-item pace follows a failure, so the next item's first call is
issued immediately. -/
theorem C8_interitem_pace_amended (backend : Backend)
    (closure results : List ScanResult) (urls : List String)
    (halign : closure.map (fun r => r.url) =
      results.map (fun r => r.url))
    (hfound : ∀ u ∈ urls, (lookupUrl u results).isSome) :
    (startPerformanceScanWithUrls backend none urls closure results).2 =
      itemsJoin backend urls ∧
    (∀ (u : String) (last : Bool) (msg : String),
       backend u Strategy.mobile = Except.error msg →
       itemEvents backend u last = [Event.call u Strategy.mobile]) ∧
    (∀ (u : String) (last : Bool) (m : DeviceResult) (msg : String),
       backend u Strategy.mobile = Except.ok m →
       backend u Strategy.desktop = Except.error msg →
       itemEvents backend u last =
         [Event.call u Strategy.mobile, Event.pace 3000,
          Event.call u Strategy.desktop]) := by
  refine ⟨?_, ?_, ?_⟩
  · rw [startPerformanceScanWithUrls,
      runScanAux_eq_aligned backend none _ _ 0 closure results halign]
    exact scanLoopAligned_trace backend urls urls.length 0 results
      (by simp) hfound
  · intro u last msg hm
    rw [itemEvents, hm]
  · intro u last m msg hm hd
    rw [itemEvents, hm, hd]

/-- C8 amended witness: a mobile-failed item contributes only its
failing call, no trailing pace. -/
theorem C8_interitem_pace_amended_witness :
    itemEvents (mobileFailsOn "a") "a" false =
      [Event.call "a" Strategy.mobile] :=
  (C8_interitem_pace_amended (mobileFailsOn "a")
    ((["a", "b"] : List String).map freshPending)
    ((["a", "b"] : List String).map freshPending) ["a", "b"] rfl
    (fun u hu => by
      rw [lookupUrl_map_freshPending ["a", "b"] u hu]; rfl)).2.1 "a"
    false "boom" rfl

/-- C9: in every state of the results list reachable by any sequence
of queue initialization, scan runs (with any captured closure and any
cancellation timing), retry-failed and retry-one operations, every
Completed item has both device payloads present and no error
message. -/
theorem C9_completed_invariant (results : List ScanResult)
    (h : ReachableResults results) :
    ∀ r ∈ results, r.status = ScanStatus.completed →
      r.mobile.isSome = true ∧ r.desktop.isSome = true ∧
        r.error = none :=
  fun r hr hc => goodItem_spec r (reachable_good results h r hr) hc

/-- C9 witness: a completed item produced by an actual model run. -/
theorem C9_completed_invariant_witness :
    (ScanResult.mk "a" ScanStatus.completed none (some demoDevice)
        (some demoDevice) none).mobile.isSome = true ∧
    (ScanResult.mk "a" ScanStatus.completed none (some demoDevice)
        (some demoDevice) none).desktop.isSome = true ∧
    (ScanResult.mk "a" ScanStatus.completed none (some demoDevice)
        (some demoDevice) none).error = none :=
  C9_completed_invariant
    (applyScanOp (ScanOp.start okBackend none ["a"]
        ((["a"] : List String).map freshPending))
      (applyScanOp (ScanOp.init ["a"]) []))
    (ReachableResults.step _ (ReachableResults.step _
      ReachableResults.empty))
    (ScanResult.mk "a" ScanStatus.completed none (some demoDevice)
      (some demoDevice) none)
    (by decide) (by decide)

/-- C10: on the success path of the PageSpeed route, every returned
issue has a score that is null or strictly below 0.9, its id belongs to
the fixed list of 19 relevant audit ids, and the issue sequence follows
that list's order (its id sequence is a sublist of the fixed list). -/
theorem C10_issue_extraction (audits : String → Option Audit) :
    relevantAuditIds.length = 19 ∧
    (∀ issue ∈ extractIssues audits,
       (issue.score = none ∨ ∃ s, issue.score = some s ∧
          s < (9 : Rat) / 10) ∧
       issue.id ∈ relevantAuditIds) ∧
    List.Sublist ((extractIssues audits).map (fun i => i.id))
      relevantAuditIds := by
  refine ⟨rfl, ?_, extractIssues_ids_sublist audits⟩
  intro issue hmem
  obtain ⟨hid, hw⟩ := extractIssues_mem audits issue hmem
  refine ⟨?_, hid⟩
  cases hsc : issue.score with
  | none => exact Or.inl rfl
  | some s =>
    right
    refine ⟨s, rfl, ?_⟩
    rw [hsc] at hw
    simpa [issueWorthy] using hw

/-- C10 witness: an audits map with one failing (null-scored) relevant
audit. -/
theorem C10_issue_extraction_witness :
    ((AuditIssue.mk "image-alt" "t" "d" none none).score = none ∨
      ∃ s, (AuditIssue.mk "image-alt" "t" "d" none none).score = some s ∧
        s < (9 : Rat) / 10) ∧
    (AuditIssue.mk "image-alt" "t" "d" none none).id ∈
      relevantAuditIds :=
  (C10_issue_extraction (fun id => if id = "image-alt" then
      some (Audit.mk "t" "d" none none) else none)).2.1
    (AuditIssue.mk "image-alt" "t" "d" none none) (by decide)
